import Mathlib

/-!
Verification of the recording-container frame index builder, the playout
scheduler and the request handlers of `src/plugins/janus_auviousrecordplay.c`.

The container file is modelled as a `List Nat` of byte values.  File reads
(`fread`) return the bytes actually available and overwrite a prefix of the
scratch buffer `prebuffer`, which is carried through both passes exactly as in
the C code (including its staleness on short reads).  The doubly linked frame
list built by `janus_auviousrecordplay_get_frames` is modelled as a heap of
nodes addressed by allocation index, with `prev`/`next` links mirrored
pointer-write for pointer-write, so that link consistency and non-circularity
are genuine theorems rather than by-construction facts.

External libraries are abstracted: the JSON decoding of the `'J'` info header
(jansson) is a parameter `pi : List Nat → Option Bool` (the builder only uses
its success/failure), and the random id source of the registry is a stream of
candidate values.
-/

namespace AuviousRecordPlay

/-! ## Byte-level file access -/

/-- Read `n` bytes at position `pos`; at end of file fewer bytes come back,
exactly like `fread`. -/
def readAt (file : List Nat) (pos n : Nat) : List Nat :=
  (file.drop pos).take n

/-- Byte `i` of a byte list (reads of a 1500-byte C buffer are always in
bounds; out-of-range reads of a modelled list default to 0). -/
def byteAt (l : List Nat) (i : Nat) : Nat :=
  l.getD i 0

/-- `fread` into the scratch buffer: the bytes read overwrite a prefix, the
rest of the buffer keeps its previous (possibly stale) contents. -/
def writeBuf (buf bs : List Nat) : List Nat :=
  bs ++ buf.drop bs.length

/-- The C string stored in the buffer (up to the first NUL), as handed to the
JSON decoder. -/
def cstr (l : List Nat) : List Nat :=
  l.takeWhile (fun b => b ≠ 0)

/-- Value of the record-length field after `ntohs`: the first byte read is the
high-order byte. -/
def lenVal (lo hi : Nat) : Nat :=
  lo * 256 + hi

/-- `fread(&len, sizeof(uint16_t), 1, file)` followed by `ntohs`: on a full
read both bytes are replaced; on a short read the remaining byte keeps its
stale value.  Returns the two stored bytes and the count of bytes consumed
from the stream. -/
def readLen (file : List Nat) (pos : Nat) (lo hi : Nat) : Nat × Nat × Nat :=
  match readAt file pos 2 with
  | [a, b] => (a, b, 2)
  | [a] => (a, hi, 1)
  | _ => (lo, hi, 0)

/-- RTP sequence number: `ntohs(rtp->seq_number)`, bytes 2 and 3 of the
transport header. -/
def rtpSeqOf (buf : List Nat) : Nat :=
  byteAt buf 2 * 256 + byteAt buf 3

/-- RTP timestamp: `ntohl(rtp->timestamp)`, bytes 4-7 of the transport
header. -/
def rtpTsOf (buf : List Nat) : Nat :=
  byteAt buf 4 * 16777216 + byteAt buf 5 * 65536 + byteAt buf 6 * 256 + byteAt buf 7

/-! ## Frame packets and the doubly linked list heap

`janus_auviousrecordplay_frame_packet` carries `seq`, the 64-bit extended
timestamp `ts`, the payload length and the file offset of the payload, plus
`prev`/`next` pointers.  Pointers are modelled as allocation indices into
`FrameHeap.nodes`. -/

structure FramePacket where
  seq : Nat
  ts : Nat
  len : Nat
  offset : Nat
deriving DecidableEq

structure FrameNode where
  pkt : FramePacket
  prev : Option Nat
  next : Option Nat
deriving DecidableEq

instance : Inhabited FramePacket := ⟨⟨0, 0, 0, 0⟩⟩
instance : Inhabited FrameNode := ⟨⟨default, none, none⟩⟩

/-- `list`/`last` are the C variables of the same names in
`janus_auviousrecordplay_get_frames`. -/
structure FrameHeap where
  nodes : List FrameNode
  head : Option Nat
  last : Option Nat
deriving DecidableEq

def FrameHeap.empty : FrameHeap := ⟨[], none, none⟩

def getNode (h : FrameHeap) (i : Nat) : FrameNode :=
  h.nodes.getD i default

def setNodePrev (h : FrameHeap) (i : Nat) (v : Option Nat) : FrameHeap :=
  { h with nodes := h.nodes.set i { getNode h i with prev := v } }

def setNodeNext (h : FrameHeap) (i : Nat) (v : Option Nat) : FrameHeap :=
  { h with nodes := h.nodes.set i { getNode h i with next := v } }

/-- `abs(tmp->seq - p->seq)` on `int`-promoted 16-bit sequence numbers. -/
def seqDist (x y : Nat) : Nat :=
  ((x : Int) - (y : Int)).natAbs

/-- The wraparound-aware "sequence `x` precedes sequence `y`" test used by the
backward scan: either `x < y` with a gap below 10000, or `x > y` with a gap
above 10000 (treated as a 16-bit wraparound, reversing the naive order). -/
def SeqWrapPrec (x y : Nat) : Prop :=
  (x < y ∧ seqDist x y < 10000) ∨ (y < x ∧ 10000 < seqDist x y)

instance (x y : Nat) : Decidable (SeqWrapPrec x y) := by
  unfold SeqWrapPrec; exact inferInstance

/-- The disjunction of the three conditions under which the backward scan of
the ordered list inserts the new packet `p` immediately after node `t`
(lines 2155, 2171, 2185 of the C source). -/
def ShouldInsertAfter (t p : FramePacket) : Prop :=
  t.ts < p.ts ∨ (t.ts = p.ts ∧ SeqWrapPrec t.seq p.seq)

instance (t p : FramePacket) : Decidable (ShouldInsertAfter t p) := by
  unfold ShouldInsertAfter; exact inferInstance

/-- Insert node `n` immediately after node `t`: the four pointer writes of the
C insertion (`tmp->next->prev = p; p->next = tmp->next` or `last = p`, then
`tmp->next = p; p->prev = tmp`). -/
def linkAfter (h : FrameHeap) (t n : Nat) : FrameHeap :=
  let h1 :=
    match (getNode h t).next with
    | some j => setNodeNext (setNodePrev h j (some n)) n (some j)
    | none => { h with last := some n }
  setNodePrev (setNodeNext h1 t (some n)) n (some t)

/-- The scan reached the start of the list: `p->next = list; list->prev = p;
list = p`. -/
def linkHead (h : FrameHeap) (n : Nat) : FrameHeap :=
  match h.head with
  | some hd => { setNodePrev (setNodeNext h n (some hd)) hd (some n) with head := some n }
  | none => h

/-- The backward scan `while(tmp) { ... tmp = tmp->prev; }`.  `fuel` bounds the
walk; under the chain invariant the prev-chain from `last` is finite and the
fuel is never exhausted. -/
def scanBack (h : FrameHeap) (p : FramePacket) (n : Nat) : Nat → Option Nat → FrameHeap
  | _, none => linkHead h n
  | 0, some _ => h
  | fuel + 1, some t =>
    if ShouldInsertAfter (getNode h t).pkt p then linkAfter h t n
    else scanBack h p n fuel (getNode h t).prev

/-- Allocate a `FramePacket` node (with `p->prev = p->next = NULL`) and insert
it into the ordered doubly linked list, scanning backward from `last`. -/
def insertPacket (h : FrameHeap) (p : FramePacket) : FrameHeap :=
  let n := h.nodes.length
  let h' : FrameHeap := { h with nodes := h.nodes ++ [⟨p, none, none⟩] }
  match h.head with
  | none => { h' with head := some n, last := some n }
  | some _ => scanBack h' p n h'.nodes.length h'.last

/-! ## Pass 1: discontinuity detection -/

/-- The timestamp bookkeeping applied to each transport header read in
pass 1 (lines 2075-2091): state is `(first_ts, last_ts, reset)`. -/
def pass1Step (f la r ts : Nat) : Nat × Nat × Nat :=
  if la = 0 then
    (if ts > 1000000 then ts - 1000000 else ts, ts, r)
  else if ts < la then
    (f, ts, if la - ts > 2000000000 then ts else r)
  else
    (f, ts, if ts < r then ts else r)

/-- Pass 1's `(first_ts, last_ts, reset)` state after processing a list of
timestamps, starting from the all-zero initial state. -/
def pass1Run (l : List Nat) : Nat × Nat × Nat :=
  l.foldl (fun s ts => pass1Step s.1 s.2.1 s.2.2 ts) (0, 0, 0)

structure P1St where
  offset : Nat
  parsedHeader : Bool
  firstTs : Nat
  lastTs : Nat
  reset : Nat
  lenLo : Nat
  lenHi : Nat
  buf : List Nat
deriving DecidableEq

/-- The shared tail of a pass-1 iteration (lines 2072-2091): read 16 bytes of
transport header at stream position `spos` and update the timestamp state. -/
def p1Media (file : List Nat) (spos : Nat) (buf : List Nat) (f la r : Nat) :
    List Nat × Nat × Nat × Nat :=
  let buf2 := writeBuf buf (readAt file spos 16)
  (buf2, pass1Step f la r (rtpTsOf buf2))

/-- Pass 1 of `janus_auviousrecordplay_get_frames` (lines 1950-2094).  `pi`
abstracts the jansson decoding and field validation of the `'J'` info header;
`none` is a decode/validation failure.  Returns `none` on the error paths on
which the C function returns `NULL`.  Note that the `'J'` info-header branch
has no `continue`: after a successful parse the 16 bytes that follow the info
payload (the next record's magic and length) are read as a transport header,
exactly as in the source. -/
def pass1Go (pi : List Nat → Option Bool) (file : List Nat) : Nat → P1St → Option P1St
  | 0, _ => none
  | fuel + 1, st =>
    if st.offset < file.length then
      let hdr := readAt file st.offset 8
      if hdr.length = 8 ∧ byteAt hdr 0 = 77 then
        let buf1 := writeBuf st.buf hdr
        let rl := readLen file (st.offset + 8) st.lenLo st.lenHi
        let len := lenVal rl.1 rl.2.1
        let spos := st.offset + 8 + rl.2.2
        let off2 := st.offset + 10
        if byteAt buf1 1 = 69 then
          if len = 5 ∧ st.parsedHeader = false then
            let buf2 := writeBuf buf1 (readAt file spos 5)
            if byteAt buf2 0 = 118 ∨ byteAt buf2 0 = 97 then
              pass1Go pi file fuel
                { offset := off2 + len, parsedHeader := true, firstTs := st.firstTs,
                  lastTs := st.lastTs, reset := st.reset, lenLo := rl.1, lenHi := rl.2.1,
                  buf := buf2 }
            else none
          else if len < 12 then
            pass1Go pi file fuel
              { st with offset := off2 + len, lenLo := rl.1, lenHi := rl.2.1, buf := buf1 }
          else
            let m := p1Media file spos buf1 st.firstTs st.lastTs st.reset
            pass1Go pi file fuel
              { offset := off2 + len, parsedHeader := st.parsedHeader, firstTs := m.2.1,
                lastTs := m.2.2.1, reset := m.2.2.2, lenLo := rl.1, lenHi := rl.2.1,
                buf := m.1 }
        else if byteAt buf1 1 = 74 then
          if 0 < len ∧ st.parsedHeader = false then
            let pay := readAt file spos len
            let buf2 := (writeBuf buf1 pay).set len 0
            match pi (cstr buf2) with
            | none => none
            | some _ =>
              let m := p1Media file (spos + pay.length) buf2 st.firstTs st.lastTs st.reset
              pass1Go pi file fuel
                { offset := off2 + len, parsedHeader := true, firstTs := m.2.1,
                  lastTs := m.2.2.1, reset := m.2.2.2, lenLo := rl.1, lenHi := rl.2.1,
                  buf := m.1 }
          else
            let m := p1Media file spos buf1 st.firstTs st.lastTs st.reset
            pass1Go pi file fuel
              { offset := off2 + len, parsedHeader := st.parsedHeader, firstTs := m.2.1,
                lastTs := m.2.2.1, reset := m.2.2.2, lenLo := rl.1, lenHi := rl.2.1,
                buf := m.1 }
        else none
      else none
    else some st

/-! ## Pass 2: index construction -/

/-- The 64-bit extended timestamp of a media record (lines 2127-2141):
`reset == 0` means no reset was recorded; otherwise raw values above
`first_ts` are pre-reset and the rest get `UINT32_MAX + 1` added. -/
def extendTs (reset firstTs raw : Nat) : Nat :=
  if reset = 0 then raw
  else if raw > firstTs then raw
  else 4294967296 + raw

structure P2St where
  offset : Nat
  lenLo : Nat
  lenHi : Nat
  buf : List Nat
  heap : FrameHeap
deriving DecidableEq

/-- One iteration of the pass-2 loop body (lines 2099-2213), entered with
`offset < fsize`. -/
def pass2Step (file : List Nat) (firstTs reset : Nat) (st : P2St) : P2St :=
  let hdr := readAt file st.offset 8
  let buf1 := (writeBuf st.buf hdr).set 8 0
  let rl := readLen file (st.offset + hdr.length) st.lenLo st.lenHi
  let len := lenVal rl.1 rl.2.1
  let spos := st.offset + hdr.length + rl.2.2
  let off2 := st.offset + 10
  if byteAt buf1 1 = 74 ∨ len < 12 then
    { offset := off2 + len, lenLo := rl.1, lenHi := rl.2.1, buf := buf1, heap := st.heap }
  else
    let buf2 := writeBuf buf1 (readAt file spos 16)
    let p : FramePacket :=
      { seq := rtpSeqOf buf2, ts := extendTs reset firstTs (rtpTsOf buf2),
        len := len, offset := off2 }
    { offset := off2 + len, lenLo := rl.1, lenHi := rl.2.1, buf := buf2,
      heap := insertPacket st.heap p }

def pass2Go (file : List Nat) (firstTs reset : Nat) : Nat → P2St → P2St
  | 0, st => st
  | fuel + 1, st =>
    if st.offset < file.length then
      pass2Go file firstTs reset fuel (pass2Step file firstTs reset st)
    else st

/-- `janus_auviousrecordplay_get_frames`, from the point where the file bytes
are in hand: pass 1 looks for timestamp resets, pass 2 builds the ordered
doubly linked list.  The 1500-byte scratch buffer and the `len` variable carry
over from pass 1 into pass 2 as in the C code. -/
def getFrames (pi : List Nat → Option Bool) (file : List Nat) : Option FrameHeap :=
  match pass1Go pi file (file.length + 1)
      ⟨0, false, 0, 0, 0, 0, 0, List.replicate 1500 0⟩ with
  | none => none
  | some st1 =>
    (pass2Go file st1.firstTs st1.reset (file.length + 1)
      ⟨0, st1.lenLo, st1.lenHi, st1.buf, FrameHeap.empty⟩).heap |> some

/-! ## The chain invariant of the doubly linked list

`IsChain h ixs` says that the allocation indices `ixs`, in order, spell out the
doubly linked list held in `h`: following `next` from `head` visits exactly
`ixs` (so the list is finite and non-circular), each `prev` points back to the
predecessor, `last` is the final node, and every allocated node is on the
chain. -/

def adjR (h : FrameHeap) (a b : Nat) : Prop :=
  (getNode h a).next = some b ∧ (getNode h b).prev = some a

structure IsChain (h : FrameHeap) (ixs : List Nat) : Prop where
  adj : ixs.Chain' (adjR h)
  head_eq : h.head = ixs.head?
  last_eq : h.last = ixs.getLast?
  prev_head : ∀ a ∈ ixs.head?, (getNode h a).prev = none
  next_last : ∀ a ∈ ixs.getLast?, (getNode h a).next = none
  bounds : ∀ i ∈ ixs, i < h.nodes.length
  nodup : ixs.Nodup
  complete : ixs.length = h.nodes.length

/-- The packets spelled out along a chain of node indices. -/
def chainPkts (h : FrameHeap) (ixs : List Nat) : List FramePacket :=
  ixs.map fun i => (getNode h i).pkt

/-- The order the index builder is meant to produce: non-decreasing extended
timestamp, with equal-timestamp neighbours never inverted under the
wraparound-aware sequence comparison. -/
def sortedRel (a b : FramePacket) : Prop :=
  a.ts < b.ts ∨ (a.ts = b.ts ∧ ¬ SeqWrapPrec b.seq a.seq)

/-- A well-formed sorted heap: some index chain spells its linked list and the
packets along it are sorted. -/
def GoodHeap (h : FrameHeap) : Prop :=
  ∃ ixs, IsChain h ixs ∧ (chainPkts h ixs).Chain' sortedRel

lemma sortedRel_iff_notInsert (a b : FramePacket) :
    sortedRel a b ↔ ¬ ShouldInsertAfter b a := by
  unfold sortedRel ShouldInsertAfter
  constructor
  · rintro (hlt | ⟨he, hn⟩) (h1 | ⟨h2, h3⟩) <;> first | omega | exact hn h3
  · intro hn
    rcases lt_trichotomy a.ts b.ts with h1 | h1 | h1
    · exact Or.inl h1
    · exact Or.inr ⟨h1, fun hs => hn (Or.inr ⟨h1.symm, hs⟩)⟩
    · exact absurd (Or.inl h1) hn

lemma shouldInsertAfter_asymm {a b : FramePacket} (hab : ShouldInsertAfter a b) :
    ¬ ShouldInsertAfter b a := by
  unfold ShouldInsertAfter SeqWrapPrec seqDist at hab ⊢
  omega

/-! ### Pointwise lemmas about heap updates -/

lemma getD_set_self {α : Type} (l : List α) (i : Nat) (v d : α) (hi : i < l.length) :
    (l.set i v).getD i d = v := by
  simp [List.getD_eq_getElem?_getD, List.getElem?_set, hi]

lemma getD_set_ne {α : Type} (l : List α) (i : Nat) (v d : α) (j : Nat) (hij : i ≠ j) :
    (l.set i v).getD j d = l.getD j d := by
  simp [List.getD_eq_getElem?_getD, List.getElem?_set, hij]

def pushNode (h : FrameHeap) (p : FramePacket) : FrameHeap :=
  { h with nodes := h.nodes ++ [⟨p, none, none⟩] }

lemma insertPacket_eq (h : FrameHeap) (p : FramePacket) :
    insertPacket h p =
      match h.head with
      | none => { pushNode h p with head := some h.nodes.length, last := some h.nodes.length }
      | some _ =>
        scanBack (pushNode h p) p h.nodes.length (h.nodes.length + 1) (pushNode h p).last := by
  cases hh : h.head <;> simp [insertPacket, pushNode, hh]

lemma getNode_push_lt (h : FrameHeap) (p : FramePacket) {i : Nat} (hi : i < h.nodes.length) :
    getNode (pushNode h p) i = getNode h i := by
  unfold getNode pushNode
  exact List.getD_append _ _ _ _ hi

lemma getNode_push_self (h : FrameHeap) (p : FramePacket) :
    getNode (pushNode h p) h.nodes.length = ⟨p, none, none⟩ := by
  unfold getNode pushNode
  rw [List.getD_append_right _ _ _ _ (le_refl _)]
  simp

lemma getNode_setNext_self (h : FrameHeap) (i : Nat) (v : Option Nat)
    (hi : i < h.nodes.length) :
    getNode (setNodeNext h i v) i = { getNode h i with next := v } := by
  unfold getNode setNodeNext
  exact getD_set_self _ _ _ _ hi

lemma getNode_setNext_ne (h : FrameHeap) (i : Nat) (v : Option Nat) (j : Nat) (hij : i ≠ j) :
    getNode (setNodeNext h i v) j = getNode h j := by
  unfold getNode setNodeNext
  exact getD_set_ne _ _ _ _ _ hij

lemma getNode_setPrev_self (h : FrameHeap) (i : Nat) (v : Option Nat)
    (hi : i < h.nodes.length) :
    getNode (setNodePrev h i v) i = { getNode h i with prev := v } := by
  unfold getNode setNodePrev
  exact getD_set_self _ _ _ _ hi

lemma getNode_setPrev_ne (h : FrameHeap) (i : Nat) (v : Option Nat) (j : Nat) (hij : i ≠ j) :
    getNode (setNodePrev h i v) j = getNode h j := by
  unfold getNode setNodePrev
  exact getD_set_ne _ _ _ _ _ hij

lemma length_setNext (h : FrameHeap) (i : Nat) (v : Option Nat) :
    (setNodeNext h i v).nodes.length = h.nodes.length := by
  simp [setNodeNext]

lemma length_setPrev (h : FrameHeap) (i : Nat) (v : Option Nat) :
    (setNodePrev h i v).nodes.length = h.nodes.length := by
  simp [setNodePrev]

/-- Adjacency transfers between heaps that agree on the `next` field of every
non-final chain element and the `prev` field of every non-initial one. -/
lemma adj_congr (h h2 : FrameHeap) : ∀ l : List Nat,
    (∀ x ∈ l.dropLast, (getNode h2 x).next = (getNode h x).next) →
    (∀ x ∈ l.tail, (getNode h2 x).prev = (getNode h x).prev) →
    l.Chain' (adjR h) → l.Chain' (adjR h2) := by
  intro l
  induction l with
  | nil => intro _ _ _; simp
  | cons x t ih =>
    cases t with
    | nil => intro _ _ _; simp
    | cons y r =>
      intro hn hp hc
      rw [List.chain'_cons] at hc ⊢
      refine ⟨⟨?_, ?_⟩, ?_⟩
      · rw [hn x (by simp [List.dropLast_cons₂])]; exact hc.1.1
      · rw [hp y (by simp)]; exact hc.1.2
      · refine ih ?_ ?_ hc.2
        · intro z hz
          exact hn z (by simp [List.dropLast_cons₂]; right; simpa using hz)
        · intro z hz; exact hp z (List.mem_cons_of_mem _ hz)

lemma scanBack_none (h : FrameHeap) (p : FramePacket) (n fuel : Nat) :
    scanBack h p n fuel none = linkHead h n := by
  cases fuel <;> rfl

lemma scanBack_succ_some (h : FrameHeap) (p : FramePacket) (n fuel t : Nat) :
    scanBack h p n (fuel + 1) (some t) =
      if ShouldInsertAfter (getNode h t).pkt p then linkAfter h t n
      else scanBack h p n fuel (getNode h t).prev := rfl

/-- In a chain split as `pre ++ a :: post`, node `a`'s `next` link points at
the head of `post`. -/
lemma chain_next_of_split (h : FrameHeap) (pre post : List Nat) (a : Nat)
    (hc : IsChain h (pre ++ a :: post)) : (getNode h a).next = post.head? := by
  cases post with
  | nil =>
    exact hc.next_last a (by rw [List.getLast?_append]; simp)
  | cons q rest =>
    have hadj := hc.adj
    rw [show pre ++ a :: q :: rest = (pre ++ [a]) ++ q :: rest by simp,
      List.chain'_append] at hadj
    exact (hadj.2.2 a (by simp [List.getLast?_concat]) q (by simp)).1

/-- In a chain split as `pre ++ a :: post`, node `a`'s `prev` link points at
the last element of `pre`. -/
lemma chain_prev_of_split (h : FrameHeap) (pre post : List Nat) (a : Nat)
    (hc : IsChain h (pre ++ a :: post)) : (getNode h a).prev = pre.getLast? := by
  rcases List.eq_nil_or_concat pre with rfl | ⟨bs, b, rfl⟩
  · exact hc.prev_head a (by simp)
  · have hadj := hc.adj
    rw [show bs.concat b ++ a :: post = (bs ++ [b]) ++ a :: post by simp,
      List.chain'_append] at hadj
    have := (hadj.2.2 b (by simp [List.getLast?_concat]) a (by simp)).2
    rw [this]
    simp [List.getLast?_concat]

lemma nodup_split_facts (pre post : List Nat) (a : Nat)
    (h : (pre ++ a :: post).Nodup) : a ∉ pre ∧ a ∉ post ∧ pre.Disjoint post := by
  rw [List.nodup_middle, List.nodup_cons, List.nodup_append] at h
  exact ⟨fun hm => h.1 (by simp [hm]), fun hm => h.1 (by simp [hm]), h.2.2.2⟩

lemma chainPkts_congr (h h2 : FrameHeap) (l : List Nat)
    (hp : ∀ x ∈ l, (getNode h2 x).pkt = (getNode h x).pkt) :
    chainPkts h2 l = chainPkts h l :=
  List.map_congr_left hp

lemma goodHeap_empty : GoodHeap FrameHeap.empty := by
  refine ⟨[], ⟨?_, ?_, ?_, ?_, ?_, ?_, ?_, ?_⟩, ?_⟩ <;> simp [FrameHeap.empty, chainPkts]

/-- Inserting at the head of a nonempty chain whose every node rejected the
new packet preserves the invariant. -/
lemma linkHead_good (h : FrameHeap) (p : FramePacket) (ixs : List Nat)
    (hc : IsChain h ixs) (hs : (chainPkts h ixs).Chain' sortedRel)
    (hrej : ∀ x ∈ ixs, ¬ ShouldInsertAfter (getNode h x).pkt p)
    (hne : ixs ≠ []) :
    GoodHeap (linkHead (pushNode h p) h.nodes.length) := by
  obtain ⟨hd, tl, rfl⟩ : ∃ hd tl, ixs = hd :: tl := by
    cases ixs with
    | nil => exact absurd rfl hne
    | cons hd tl => exact ⟨hd, tl, rfl⟩
  set n := h.nodes.length with hn
  have hhd_mem : hd ∈ hd :: tl := by simp
  have hhd_lt : hd < n := hc.bounds hd hhd_mem
  have hfresh : ∀ x ∈ hd :: tl, x ≠ n := fun x hx => Nat.ne_of_lt (hc.bounds x hx)
  have hh' : (pushNode h p).head = some hd := by
    have := hc.head_eq; simpa [pushNode] using this
  have hlh : linkHead (pushNode h p) n =
      { setNodePrev (setNodeNext (pushNode h p) n (some hd)) hd (some n) with
        head := some n } := by
    rw [linkHead, hh']
  rw [hlh]
  set h2 : FrameHeap :=
    { setNodePrev (setNodeNext (pushNode h p) n (some hd)) hd (some n) with
      head := some n } with hh2
  have hlen1 : (setNodeNext (pushNode h p) n (some hd)).nodes.length = n + 1 := by
    rw [length_setNext]; simp [pushNode]
  have hlen2 : h2.nodes.length = n + 1 := by
    rw [hh2]; show (setNodePrev _ _ _).nodes.length = n + 1
    rw [length_setPrev]; exact hlen1
  have hgn : getNode h2 n = ⟨p, none, some hd⟩ := by
    rw [hh2]
    show getNode (setNodePrev _ _ _) n = _
    rw [getNode_setPrev_ne _ _ _ _ (Nat.ne_of_lt hhd_lt),
      getNode_setNext_self _ _ _ (by simp [pushNode]),
      getNode_push_self]
  have hghd : getNode h2 hd = { getNode h hd with prev := some n } := by
    rw [hh2]
    show getNode (setNodePrev _ _ _) hd = _
    rw [getNode_setPrev_self _ _ _ (by rw [hlen1]; omega),
      getNode_setNext_ne _ _ _ _ (Ne.symm (Nat.ne_of_lt hhd_lt)),
      getNode_push_lt _ _ hhd_lt]
  have hgother : ∀ x ∈ hd :: tl, x ≠ hd → getNode h2 x = getNode h x := by
    intro x hx hxhd
    have hxlt : x < n := hc.bounds x hx
    rw [hh2]
    show getNode (setNodePrev _ _ _) x = _
    rw [getNode_setPrev_ne _ _ _ _ (Ne.symm hxhd),
      getNode_setNext_ne _ _ _ _ (Ne.symm (Nat.ne_of_lt hxlt)),
      getNode_push_lt _ _ hxlt]
  have hnext_pres : ∀ x ∈ hd :: tl, (getNode h2 x).next = (getNode h x).next := by
    intro x hx
    by_cases hxhd : x = hd
    · subst hxhd; rw [hghd]
    · rw [hgother x hx hxhd]
  have hprev_pres : ∀ x ∈ tl, (getNode h2 x).prev = (getNode h x).prev := by
    intro x hx
    have hxhd : x ≠ hd := by
      intro e; subst e; exact (List.nodup_cons.mp hc.nodup).1 hx
    rw [hgother x (by simp [hx]) hxhd]
  have hpkt_pres : ∀ x ∈ hd :: tl, (getNode h2 x).pkt = (getNode h x).pkt := by
    intro x hx
    by_cases hxhd : x = hd
    · subst hxhd; rw [hghd]
    · rw [hgother x hx hxhd]
  refine ⟨n :: hd :: tl, ⟨?_, ?_, ?_, ?_, ?_, ?_, ?_, ?_⟩, ?_⟩
  · rw [List.chain'_cons]
    exact ⟨⟨by rw [hgn], by rw [hghd]⟩,
      adj_congr h h2 (hd :: tl)
        (fun x hx => hnext_pres x (List.mem_of_mem_dropLast hx))
        hprev_pres hc.adj⟩
  · rfl
  · show h.last = _
    rw [hc.last_eq, List.getLast?_cons_cons]
  · intro a ha
    simp only [List.head?_cons, Option.mem_some_iff] at ha
    subst ha; rw [hgn]
  · intro a ha
    rw [List.getLast?_cons_cons] at ha
    have hmem : a ∈ hd :: tl := by
      cases e : (hd :: tl).getLast? with
      | none => rw [e] at ha; cases ha
      | some z =>
        rw [e] at ha
        simp only [Option.mem_some_iff] at ha
        subst ha
        exact List.mem_of_mem_getLast? (e ▸ rfl)
    rw [hnext_pres a hmem]
    exact hc.next_last a ha
  · intro i hi
    rw [hlen2]
    rcases List.mem_cons.mp hi with rfl | hi'
    · omega
    · have := hc.bounds i hi'; omega
  · rw [List.nodup_cons]
    exact ⟨fun hmem => (hfresh n hmem) rfl, hc.nodup⟩
  · have hcl := hc.complete
    simp only [List.length_cons] at hcl
    rw [hlen2]
    simp only [List.length_cons]
    omega
  · have hmap : chainPkts h2 (n :: hd :: tl) = p :: chainPkts h (hd :: tl) := by
      unfold chainPkts
      rw [List.map_cons, hgn]
      exact congrArg _ (chainPkts_congr h h2 (hd :: tl) hpkt_pres)
    rw [hmap, List.chain'_cons']
    refine ⟨?_, hs⟩
    intro y hy
    unfold chainPkts at hy
    rw [List.map_cons, List.head?_cons, Option.mem_some_iff] at hy
    subst hy
    exact (sortedRel_iff_notInsert _ _).mpr (hrej hd hhd_mem)

/-- Inserting after a node that satisfied the scan condition, when every node
scanned past (the suffix `post`) rejected the new packet, preserves the
invariant. -/
lemma linkAfter_good (h : FrameHeap) (p : FramePacket) (pre post : List Nat) (a : Nat)
    (hc : IsChain h (pre ++ a :: post))
    (hs : (chainPkts h (pre ++ a :: post)).Chain' sortedRel)
    (hcond : ShouldInsertAfter (getNode h a).pkt p)
    (hrej : ∀ x ∈ post, ¬ ShouldInsertAfter (getNode h x).pkt p) :
    GoodHeap (linkAfter (pushNode h p) a h.nodes.length) := by
  set n := h.nodes.length with hn
  have ha_mem : a ∈ pre ++ a :: post := by simp
  have ha_lt : a < n := hc.bounds a ha_mem
  obtain ⟨haPre, haPost, hDisj⟩ := nodup_split_facts pre post a hc.nodup
  have hnext : (getNode (pushNode h p) a).next = post.head? := by
    rw [getNode_push_lt _ _ ha_lt]; exact chain_next_of_split h pre post a hc
  have hlenPush : (pushNode h p).nodes.length = n + 1 := by simp [pushNode]
  cases post with
  | nil =>
    have hred : linkAfter (pushNode h p) a n =
        setNodePrev (setNodeNext { pushNode h p with last := some n } a (some n)) n
          (some a) := by
      simp only [linkAfter, hnext, List.head?_nil]
    rw [hred]
    set h1 : FrameHeap := { pushNode h p with last := some n } with hh1
    set h2 : FrameHeap := setNodePrev (setNodeNext h1 a (some n)) n (some a) with hh2
    have hlen1 : h1.nodes.length = n + 1 := hlenPush
    have hlen2 : h2.nodes.length = n + 1 := by
      rw [hh2, length_setPrev, length_setNext]; exact hlen1
    have hg1 : ∀ x, getNode h1 x = getNode (pushNode h p) x := fun _ => rfl
    have hga : getNode h2 a = { getNode h a with next := some n } := by
      rw [hh2, getNode_setPrev_ne _ _ _ _ (Ne.symm (Nat.ne_of_lt ha_lt)),
        getNode_setNext_self _ _ _ (by rw [hlen1]; omega), hg1,
        getNode_push_lt _ _ ha_lt]
    have hgn : getNode h2 n = ⟨p, some a, none⟩ := by
      rw [hh2, getNode_setPrev_self _ _ _ (by rw [length_setNext, hlen1]; omega),
        getNode_setNext_ne _ _ _ _ (Nat.ne_of_lt ha_lt), hg1,
        getNode_push_self]
    have hgother : ∀ x ∈ pre, getNode h2 x = getNode h x := by
      intro x hx
      have hxa : x ≠ a := fun e => haPre (e ▸ hx)
      have hxlt : x < n := hc.bounds x (by simp [hx])
      rw [hh2, getNode_setPrev_ne _ _ _ _ (Ne.symm (Nat.ne_of_lt hxlt)),
        getNode_setNext_ne _ _ _ _ (Ne.symm hxa), hg1, getNode_push_lt _ _ hxlt]
    have hprev_pres : ∀ x ∈ pre ++ a :: ([] : List Nat),
        (getNode h2 x).prev = (getNode h x).prev := by
      intro x hx
      rcases List.mem_append.mp hx with hx' | hx'
      · rw [hgother x hx']
      · have : x = a := by simpa using hx'
        subst this; rw [hga]
    have hpkt_pres : ∀ x ∈ pre ++ a :: ([] : List Nat),
        (getNode h2 x).pkt = (getNode h x).pkt := by
      intro x hx
      rcases List.mem_append.mp hx with hx' | hx'
      · rw [hgother x hx']
      · have : x = a := by simpa using hx'
        subst this; rw [hga]
    refine ⟨(pre ++ [a]) ++ [n], ⟨?_, ?_, ?_, ?_, ?_, ?_, ?_, ?_⟩, ?_⟩
    · rw [List.chain'_append]
      refine ⟨?_, by simp, ?_⟩
      · refine adj_congr h h2 (pre ++ [a]) ?_ ?_ (by simpa using hc.adj)
        · intro x hx
          rw [List.dropLast_concat] at hx
          rw [hgother x hx]
        · intro x hx
          exact hprev_pres x (by simpa using List.tail_subset _ hx)
      · intro x hx y hy
        rw [List.getLast?_concat, Option.mem_some_iff] at hx
        simp only [List.head?_cons, Option.mem_some_iff] at hy
        subst hx; subst hy
        exact ⟨by rw [hga], by rw [hgn]⟩
    · show h.head = _
      rw [hc.head_eq]
      cases pre <;> simp
    · show some n = _
      rw [List.getLast?_concat]
    · intro x hx
      have hx1 : ((pre ++ [a]) ++ [n]).head? = (pre ++ [a]).head? := by
        cases pre <;> simp
      rw [hx1] at hx
      have hxm : x ∈ pre ++ [a] := List.mem_of_mem_head? hx
      have hx2 : (pre ++ a :: ([] : List Nat)).head? = (pre ++ [a]).head? := by rfl
      rw [hprev_pres x (by simpa using hxm)]
      exact hc.prev_head x (by rw [hx2]; exact hx)
    · intro x hx
      rw [List.getLast?_concat, Option.mem_some_iff] at hx
      subst hx; rw [hgn]
    · intro i hi
      rw [hlen2]
      rcases List.mem_append.mp hi with hi' | hi'
      · have := hc.bounds i hi'; omega
      · have : i = n := by simpa using hi'
        omega
    · rw [List.nodup_append]
      refine ⟨by simpa using hc.nodup, by simp, ?_⟩
      intro x hx hx'
      have : x = n := by simpa using hx'
      subst this
      exact Nat.ne_of_lt (hc.bounds n (by simpa using hx)) rfl
    · rw [hlen2]
      have := hc.complete
      simp only [List.length_append, List.length_cons, List.length_nil] at this ⊢
      omega
    · have hmap : chainPkts h2 ((pre ++ [a]) ++ [n]) =
          chainPkts h (pre ++ a :: []) ++ [p] := by
        unfold chainPkts
        rw [List.map_append]
        refine congrArg₂ _ ?_ (by simp [hgn])
        exact List.map_congr_left fun x hx => hpkt_pres x (by simpa using hx)
      rw [hmap, List.chain'_append]
      refine ⟨hs, by simp, ?_⟩
      intro x hx y hy
      simp only [List.head?_cons, Option.mem_some_iff] at hy
      subst hy
      unfold chainPkts at hx
      rw [List.getLast?_map] at hx
      rw [show pre ++ a :: ([] : List Nat) = pre ++ [a] from rfl, List.getLast?_concat] at hx
      simp only [Option.map_some', Option.mem_some_iff] at hx
      subst hx
      exact (sortedRel_iff_notInsert _ _).mpr (shouldInsertAfter_asymm hcond)
  | cons q rest =>
    have hq_mem : q ∈ pre ++ a :: q :: rest := by simp
    have hq_lt : q < n := hc.bounds q hq_mem
    have haq : a ≠ q := fun e => haPost (e ▸ List.mem_cons_self q rest)
    have hqPre : q ∉ pre := fun hqp => hDisj hqp (List.mem_cons_self q rest)
    have hsubQR : ∀ x ∈ q :: rest, x ∈ pre ++ a :: q :: rest := by
      intro x hx
      simp only [List.mem_append, List.mem_cons] at hx ⊢
      tauto
    have hsubPA : ∀ x ∈ pre ++ [a], x ∈ pre ++ a :: q :: rest := by
      intro x hx
      simp only [List.mem_append, List.mem_cons, List.mem_singleton] at hx ⊢
      tauto
    have hred : linkAfter (pushNode h p) a n =
        setNodePrev (setNodeNext
          (setNodeNext (setNodePrev (pushNode h p) q (some n)) n (some q)) a (some n)) n
          (some a) := by
      simp only [linkAfter, hnext, List.head?_cons]
    rw [hred]
    set hA : FrameHeap := setNodePrev (pushNode h p) q (some n) with hhA
    set hB : FrameHeap := setNodeNext hA n (some q) with hhB
    set hC : FrameHeap := setNodeNext hB a (some n) with hhC
    set h2 : FrameHeap := setNodePrev hC n (some a) with hh2
    have hlenA : hA.nodes.length = n + 1 := by rw [hhA, length_setPrev]; exact hlenPush
    have hlenB : hB.nodes.length = n + 1 := by rw [hhB, length_setNext]; exact hlenA
    have hlenC : hC.nodes.length = n + 1 := by rw [hhC, length_setNext]; exact hlenB
    have hlen2 : h2.nodes.length = n + 1 := by rw [hh2, length_setPrev]; exact hlenC
    have hgq : getNode h2 q = { getNode h q with prev := some n } := by
      rw [hh2, getNode_setPrev_ne _ _ _ _ (Ne.symm (Nat.ne_of_lt hq_lt)), hhC,
        getNode_setNext_ne _ _ _ _ haq, hhB,
        getNode_setNext_ne _ _ _ _ (Ne.symm (Nat.ne_of_lt hq_lt)), hhA,
        getNode_setPrev_self _ _ _ (by rw [hlenPush]; omega),
        getNode_push_lt _ _ hq_lt]
    have hga : getNode h2 a = { getNode h a with next := some n } := by
      rw [hh2, getNode_setPrev_ne _ _ _ _ (Ne.symm (Nat.ne_of_lt ha_lt)), hhC,
        getNode_setNext_self _ _ _ (by rw [hlenB]; omega), hhB,
        getNode_setNext_ne _ _ _ _ (Ne.symm (Nat.ne_of_lt ha_lt)), hhA,
        getNode_setPrev_ne _ _ _ _ (Ne.symm haq), getNode_push_lt _ _ ha_lt]
    have hgn : getNode h2 n = ⟨p, some a, some q⟩ := by
      rw [hh2, getNode_setPrev_self _ _ _ (by rw [hlenC]; omega), hhC,
        getNode_setNext_ne _ _ _ _ (Nat.ne_of_lt ha_lt), hhB,
        getNode_setNext_self _ _ _ (by rw [hlenA]; omega), hhA,
        getNode_setPrev_ne _ _ _ _ (Nat.ne_of_lt hq_lt), getNode_push_self]
    have hgother : ∀ x, x ∈ pre ++ a :: q :: rest → x ≠ a → x ≠ q →
        getNode h2 x = getNode h x := by
      intro x hx hxa hxq
      have hxlt : x < n := hc.bounds x hx
      rw [hh2, getNode_setPrev_ne _ _ _ _ (Ne.symm (Nat.ne_of_lt hxlt)), hhC,
        getNode_setNext_ne _ _ _ _ (Ne.symm hxa), hhB,
        getNode_setNext_ne _ _ _ _ (Ne.symm (Nat.ne_of_lt hxlt)), hhA,
        getNode_setPrev_ne _ _ _ _ (Ne.symm hxq), getNode_push_lt _ _ hxlt]
    have hnext_pres : ∀ x ∈ pre ++ a :: q :: rest, x ≠ a →
        (getNode h2 x).next = (getNode h x).next := by
      intro x hx hxa
      by_cases hxq : x = q
      · subst hxq; rw [hgq]
      · rw [hgother x hx hxa hxq]
    have hprev_pres : ∀ x ∈ pre ++ a :: q :: rest, x ≠ q →
        (getNode h2 x).prev = (getNode h x).prev := by
      intro x hx hxq
      by_cases hxa : x = a
      · subst hxa; rw [hga]
      · rw [hgother x hx hxa hxq]
    have hpkt_pres : ∀ x ∈ pre ++ a :: q :: rest,
        (getNode h2 x).pkt = (getNode h x).pkt := by
      intro x hx
      by_cases hxa : x = a
      · subst hxa; rw [hga]
      · by_cases hxq : x = q
        · subst hxq; rw [hgq]
        · rw [hgother x hx hxa hxq]
    have hnodup2 : (q :: rest).Nodup := by
      have := hc.nodup
      rw [show pre ++ a :: q :: rest = (pre ++ [a]) ++ q :: rest by simp,
        List.nodup_append] at this
      exact this.2.1
    obtain ⟨z, hz⟩ : ∃ z, (q :: rest).getLast? = some z := by
      cases e : (q :: rest).getLast? with
      | none => simp at e
      | some z => exact ⟨z, rfl⟩
    have hz_mem : z ∈ q :: rest := List.mem_of_mem_getLast? (hz ▸ rfl)
    refine ⟨(pre ++ [a]) ++ n :: q :: rest, ⟨?_, ?_, ?_, ?_, ?_, ?_, ?_, ?_⟩, ?_⟩
    · have hadj := hc.adj
      rw [show pre ++ a :: q :: rest = (pre ++ [a]) ++ q :: rest by simp,
        List.chain'_append] at hadj
      rw [List.chain'_append]
      refine ⟨?_, ?_, ?_⟩
      · refine adj_congr h h2 (pre ++ [a]) ?_ ?_ hadj.1
        · intro x hx
          rw [List.dropLast_concat] at hx
          have hxa : x ≠ a := fun e => haPre (e ▸ hx)
          have hxpa : x ∈ pre ++ [a] := by simp [hx]
          exact hnext_pres x (hsubPA x hxpa) hxa
        · intro x hx
          have hxm : x ∈ pre ++ [a] := List.tail_subset _ hx
          have hxq : x ≠ q := by
            intro e
            rcases List.mem_append.mp hxm with h' | h'
            · exact hqPre (e ▸ h')
            · have hxa2 : x = a := by simpa using h'
              exact haq (hxa2.symm.trans e)
          exact hprev_pres x (hsubPA x hxm) hxq
      · rw [List.chain'_cons]
        refine ⟨⟨by rw [hgn], by rw [hgq]⟩, ?_⟩
        refine adj_congr h h2 (q :: rest) ?_ ?_ hadj.2.1
        · intro x hx
          have hxm : x ∈ q :: rest := List.mem_of_mem_dropLast hx
          have hxa : x ≠ a := fun e => haPost (e ▸ hxm)
          exact hnext_pres x (hsubQR x hxm) hxa
        · intro x hx
          have hxq : x ≠ q := by
            intro e
            exact (List.nodup_cons.mp hnodup2).1 (e ▸ hx)
          exact hprev_pres x (hsubQR x (List.mem_cons_of_mem _ hx)) hxq
      · intro x hx y hy
        rw [List.getLast?_concat, Option.mem_some_iff] at hx
        simp only [List.head?_cons, Option.mem_some_iff] at hy
        subst hx; subst hy
        exact ⟨by rw [hga], by rw [hgn]⟩
    · show h.head = _
      rw [hc.head_eq]
      cases pre <;> simp
    · have e1 : (pre ++ a :: q :: rest).getLast? = some z := by
        rw [show pre ++ a :: q :: rest = (pre ++ [a]) ++ q :: rest by simp,
          List.getLast?_append, hz]
        rfl
      have e2 : ((pre ++ [a]) ++ n :: q :: rest).getLast? = some z := by
        rw [show (pre ++ [a]) ++ n :: q :: rest = (pre ++ [a, n]) ++ q :: rest by simp,
          List.getLast?_append, hz]
        rfl
      show h.last = _
      rw [hc.last_eq, e1, e2]
    · intro x hx
      have hx1 : ((pre ++ [a]) ++ n :: q :: rest).head? = (pre ++ [a]).head? := by
        cases pre <;> simp
      rw [hx1] at hx
      have hxm : x ∈ pre ++ [a] := List.mem_of_mem_head? hx
      have hxq : x ≠ q := by
        intro e
        rcases List.mem_append.mp hxm with h' | h'
        · exact hqPre (e ▸ h')
        · have hxa2 : x = a := by simpa using h'
          exact haq (hxa2.symm.trans e)
      rw [hprev_pres x (hsubPA x hxm) hxq]
      refine hc.prev_head x ?_
      have hx2 : (pre ++ a :: q :: rest).head? = (pre ++ [a]).head? := by
        cases pre <;> simp
      rw [hx2]; exact hx
    · intro x hx
      have e1 : (pre ++ a :: q :: rest).getLast? = some z := by
        rw [show pre ++ a :: q :: rest = (pre ++ [a]) ++ q :: rest by simp,
          List.getLast?_append, hz]
        rfl
      have e2 : ((pre ++ [a]) ++ n :: q :: rest).getLast? = some z := by
        rw [show (pre ++ [a]) ++ n :: q :: rest = (pre ++ [a, n]) ++ q :: rest by simp,
          List.getLast?_append, hz]
        rfl
      rw [e2] at hx
      simp only [Option.mem_some_iff] at hx
      subst hx
      have hza : z ≠ a := fun e => haPost (e ▸ hz_mem)
      rw [hnext_pres z (hsubQR z hz_mem) hza]
      refine hc.next_last z ?_
      rw [e1]
      rfl
    · intro i hi
      rw [hlen2]
      have hsplit : i ∈ pre ++ a :: q :: rest ∨ i = n := by
        simp only [List.mem_append, List.mem_cons, List.mem_singleton] at hi ⊢
        tauto
      rcases hsplit with hi' | rfl
      · have := hc.bounds i hi'; omega
      · omega
    · rw [show (pre ++ [a]) ++ n :: q :: rest = pre ++ [a] ++ n :: q :: rest by simp]
      rw [show pre ++ [a] ++ n :: q :: rest = (pre ++ [a]) ++ n :: (q :: rest) by simp,
        List.nodup_middle, List.nodup_cons]
      constructor
      · intro hmem
        have : n ∈ pre ++ a :: q :: rest := by
          simp only [List.mem_append, List.mem_cons, List.mem_singleton] at hmem ⊢
          tauto
        exact Nat.ne_of_lt (hc.bounds n this) rfl
      · have := hc.nodup
        rw [show pre ++ a :: q :: rest = (pre ++ [a]) ++ q :: rest by simp] at this
        exact this
    · rw [hlen2]
      have := hc.complete
      simp only [List.length_append, List.length_cons, List.length_nil,
        List.length_singleton] at this ⊢
      omega
    · have hsold := hs
      have hmold : chainPkts h (pre ++ a :: q :: rest) =
          (chainPkts h pre ++ [(getNode h a).pkt]) ++
            (getNode h q).pkt :: chainPkts h rest := by
        simp [chainPkts]
      rw [hmold, List.chain'_append] at hsold
      have hmnew : chainPkts h2 ((pre ++ [a]) ++ n :: q :: rest) =
          (chainPkts h pre ++ [(getNode h a).pkt]) ++
            p :: (getNode h q).pkt :: chainPkts h rest := by
        unfold chainPkts
        simp only [List.map_append, List.map_cons, List.append_assoc, List.cons_append,
          List.nil_append]
        rw [hgn, hgq, hga]
        refine congrArg₂ _ ?_ ?_
        · exact List.map_congr_left fun x hx => hpkt_pres x (by simp [hx])
        · refine congrArg₂ _ rfl (congrArg₂ _ rfl (congrArg₂ _ rfl ?_))
          exact List.map_congr_left fun x hx =>
            hpkt_pres x (by simp [List.mem_cons_of_mem, hx])
      rw [hmnew, List.chain'_append]
      refine ⟨hsold.1, ?_, ?_⟩
      · rw [List.chain'_cons]
        refine ⟨?_, hsold.2.1⟩
        exact (sortedRel_iff_notInsert _ _).mpr (hrej q (by simp))
      · intro x hx y hy
        rw [List.getLast?_concat, Option.mem_some_iff] at hx
        simp only [List.head?_cons, Option.mem_some_iff] at hy
        subst hx; subst hy
        exact (sortedRel_iff_notInsert _ _).mpr (shouldInsertAfter_asymm hcond)

/-- The backward scan, started anywhere along the chain with every
already-scanned node (`rejected`) having rejected the packet, lands in a good
heap. -/
lemma scanBack_good (h : FrameHeap) (p : FramePacket) (ixs : List Nat)
    (hc : IsChain h ixs) (hs : (chainPkts h ixs).Chain' sortedRel) (hne : ixs ≠ []) :
    ∀ (rev rejected : List Nat), ixs = rev.reverse ++ rejected →
      (∀ x ∈ rejected, ¬ ShouldInsertAfter (getNode h x).pkt p) →
      ∀ fuel, rev.length ≤ fuel →
      GoodHeap (scanBack (pushNode h p) p h.nodes.length fuel rev.head?) := by
  intro rev
  induction rev with
  | nil =>
    intro rejected hsplit hrej fuel _
    simp only [List.head?_nil]
    rw [scanBack_none]
    refine linkHead_good h p ixs hc hs ?_ hne
    intro x hx
    refine hrej x ?_
    have : ixs = rejected := by simpa using hsplit
    exact this ▸ hx
  | cons a rev' ih =>
    intro rejected hsplit hrej fuel hfuel
    obtain ⟨f, rfl⟩ : ∃ f, fuel = f + 1 := by
      simp only [List.length_cons] at hfuel
      exact ⟨fuel - 1, by omega⟩
    have hsplit' : ixs = rev'.reverse ++ a :: rejected := by
      rw [hsplit]; simp
    have ha_mem : a ∈ ixs := by rw [hsplit']; simp
    have ha_lt : a < h.nodes.length := hc.bounds a ha_mem
    simp only [List.head?_cons]
    rw [scanBack_succ_some, getNode_push_lt _ _ ha_lt]
    by_cases hcond : ShouldInsertAfter (getNode h a).pkt p
    · rw [if_pos hcond]
      exact linkAfter_good h p rev'.reverse rejected a (hsplit' ▸ hc) (hsplit' ▸ hs)
        hcond hrej
    · rw [if_neg hcond]
      have hprev : (getNode h a).prev = rev'.reverse.getLast? :=
        chain_prev_of_split h rev'.reverse rejected a (hsplit' ▸ hc)
      rw [hprev, List.getLast?_reverse]
      refine ih (a :: rejected) hsplit' ?_ f ?_
      · intro x hx
        rcases List.mem_cons.mp hx with rfl | hx'
        · exact hcond
        · exact hrej x hx'
      · simp only [List.length_cons] at hfuel
        omega

/-- The insertion of `janus_auviousrecordplay_get_frames` preserves the chain
invariant and sortedness. -/
lemma insertPacket_good (h : FrameHeap) (p : FramePacket) (hg : GoodHeap h) :
    GoodHeap (insertPacket h p) := by
  obtain ⟨ixs, hc, hs⟩ := hg
  rw [insertPacket_eq]
  cases hh : h.head with
  | none =>
    have hixs : ixs = [] := by
      have := hc.head_eq
      rw [hh] at this
      cases ixs with
      | nil => rfl
      | cons x t => simp at this
    subst hixs
    have hnodes : h.nodes = [] := by
      have := hc.complete
      simp only [List.length_nil] at this
      exact List.length_eq_zero.mp this.symm
    refine ⟨[h.nodes.length], ⟨?_, ?_, ?_, ?_, ?_, ?_, ?_, ?_⟩, ?_⟩
    · simp
    · rfl
    · rfl
    · intro x hx
      simp only [List.head?_cons, Option.mem_some_iff] at hx
      subst hx
      show (getNode (pushNode h p) h.nodes.length).prev = none
      rw [getNode_push_self]
    · intro x hx
      simp only [List.getLast?_singleton, Option.mem_some_iff] at hx
      subst hx
      show (getNode (pushNode h p) h.nodes.length).next = none
      rw [getNode_push_self]
    · intro i hi
      have hieq : i = h.nodes.length := by simpa using hi
      subst hieq
      show h.nodes.length < (pushNode h p).nodes.length
      simp [pushNode]
    · simp
    · show _ = (pushNode h p).nodes.length
      simp [pushNode, hnodes]
    · show ([h.nodes.length].map _).Chain' sortedRel
      simp
  | some hd =>
    have hne : ixs ≠ [] := by
      intro e
      have := hc.head_eq
      rw [hh, e] at this
      simp at this
    have hlast : (pushNode h p).last = ixs.getLast? := hc.last_eq
    rw [hlast, ← List.head?_reverse]
    refine scanBack_good h p ixs hc hs hne ixs.reverse [] (by simp) (by simp) _ ?_
    rw [List.length_reverse]
    have := hc.complete
    omega

lemma pass2Step_heap (file : List Nat) (f r : Nat) (st : P2St) :
    (pass2Step file f r st).heap = st.heap ∨
      ∃ q, (pass2Step file f r st).heap = insertPacket st.heap q := by
  simp only [pass2Step]
  split
  · exact Or.inl rfl
  · exact Or.inr ⟨_, rfl⟩

lemma pass2Go_good (file : List Nat) (f r : Nat) :
    ∀ fuel st, GoodHeap st.heap → GoodHeap (pass2Go file f r fuel st).heap := by
  intro fuel
  induction fuel with
  | zero => intro st hg; exact hg
  | succ m ih =>
    intro st hg
    have hstep : pass2Go file f r (m + 1) st =
        if st.offset < file.length then pass2Go file f r m (pass2Step file f r st)
        else st := rfl
    rw [hstep]
    split
    · refine ih _ ?_
      rcases pass2Step_heap file f r st with he | ⟨q, he⟩
      · rw [he]; exact hg
      · rw [he]; exact insertPacket_good _ _ hg
    · exact hg

/-- Any heap coming out of `getFrames` satisfies the chain invariant and is
sorted. -/
lemma getFrames_good (pi : List Nat → Option Bool) (file : List Nat)
    (hp : FrameHeap) (hok : getFrames pi file = some hp) : GoodHeap hp := by
  unfold getFrames at hok
  cases h1 : pass1Go pi file (file.length + 1)
      ⟨0, false, 0, 0, 0, 0, 0, List.replicate 1500 0⟩ with
  | none => rw [h1] at hok; cases hok
  | some st1 =>
    rw [h1] at hok
    simp only [Option.some.injEq] at hok
    rw [← hok]
    exact pass2Go_good file st1.firstTs st1.reset (file.length + 1)
      ⟨0, st1.lenLo, st1.lenHi, st1.buf, FrameHeap.empty⟩ goodHeap_empty

/-! ## Computable chain extraction (follow `next` from `head`) -/

def nextChain (h : FrameHeap) : Nat → Option Nat → List Nat
  | 0, _ => []
  | _, none => []
  | fuel + 1, some i => i :: nextChain h fuel (getNode h i).next

def chainIdxs (h : FrameHeap) : List Nat :=
  nextChain h h.nodes.length h.head

/-- The packets of the linked list in playback order. -/
def chainList (h : FrameHeap) : List FramePacket :=
  (chainIdxs h).map fun i => (getNode h i).pkt

/-! ## Playout scheduler (`janus_auviousrecordplay_playout_thread`)

Wall-clock instants are `struct timeval` pairs; the thread state per track is
the cursor into the frame list and the reference instant `abefore`/`vbefore`.
A "tick" is one evaluation of a track inside the big `while` loop. -/

structure Timeval where
  sec : Int
  usec : Int
deriving DecidableEq

def totalUs (t : Timeval) : Int := t.sec * 1000000 + t.usec

/-- Elapsed time computation of lines 2351-2358: seconds and microseconds
subtracted separately, negative microseconds borrow one second. -/
def elapsedUs (before now : Timeval) : Int :=
  let ds := now.sec - before.sec
  let dus := now.usec - before.usec
  if dus < 0 then (ds - 1) * 1000000 + (dus + 1000000)
  else ds * 1000000 + dus

/-- The reference-instant update of lines 2363-2371: note the final
`tv_usec -= ts_diff/1000000`, which makes the advance fall short of `ts_diff`
by `ts_diff/1000000` microseconds whenever the gap reaches one second.
`Int.tdiv`/`Int.tmod` are C's truncated `/` and `%` on `int64_t`. -/
def advanceRef (t : Timeval) (d : Int) : Timeval :=
  let u1 := t.usec + Int.tmod d 1000000
  let t1 : Timeval := if u1 > 1000000 then ⟨t.sec + 1, u1 - 1000000⟩ else ⟨t.sec, u1⟩
  if Int.tdiv d 1000000 > 0 then
    ⟨t1.sec + Int.tdiv d 1000000, t1.usec - Int.tdiv d 1000000⟩
  else t1

/-- Reinterpret an integer as a 64-bit two's-complement value. -/
def wrap64 (x : Int) : Int := (x + 2 ^ 63) % 2 ^ 64 - 2 ^ 63

/-- `ts_diff = cur - prev` (`guint64` subtraction read into `int64_t`)
followed by `ts_diff = (ts_diff*1000)/khz` (lines 2348-2349 / 2415-2416). -/
def tsDiffUs (prevTs curTs : Nat) (khz : Int) : Int :=
  Int.tdiv (wrap64 (wrap64 ((curTs : Int) - (prevTs : Int)) * 1000)) khz

/-- `akhz` (lines 2313-2315): 8 kHz for the reserved static audio payload
types 0, 8, 9, otherwise 48 kHz. -/
def akhzOf (audioPt : Nat) : Int :=
  if audioPt = 0 ∨ audioPt = 8 ∨ audioPt = 9 then 8 else 48

/-- `vkhz` (line 2316). -/
def vkhz : Int := 90

/-- `rtp->type = pt`: overwrite the low 7 bits of byte 1 of the packet (the
payload-type field), leaving the marker bit and all other bytes unchanged. -/
def setPtByte (buffer : List Nat) (pt : Nat) : List Nat :=
  buffer.set 1 (byteAt buffer 1 / 128 * 128 + pt % 128)

/-- Read one recorded packet from the container file (`fseek` to its offset,
`fread` of `len` bytes), overwrite the payload type, and relay the bytes
actually read. -/
def sendPacketBytes (file : List Nat) (p : FramePacket) (pt : Nat) : List Nat :=
  setPtByte (readAt file p.offset p.len) pt

/-- One evaluation of the audio track inside the playout loop (lines
2326-2389).  `full` is the track's frame list, `k` the cursor position (the C
pointer `audio` equals `session->aframes` exactly when `k = 0`), `abefore`
the reference instant and `now` this tick's clock reading.  Returns the
packets relayed, the new cursor, the new reference instant and `asent`. -/
def audioTick (afile : List Nat) (audioPt : Nat) (full : List FramePacket) (k : Nat)
    (abefore now : Timeval) : List (List Nat) × Nat × Timeval × Bool :=
  match full.drop k with
  | [] => ([], k, abefore, false)
  | a :: _ =>
    if k = 0 then
      ([sendPacketBytes afile a audioPt], 1, now, true)
    else
      let d := tsDiffUs (full.getD (k - 1) default).ts a.ts (akhzOf audioPt)
      if elapsedUs abefore now < d - 5000 then ([], k, abefore, false)
      else ([sendPacketBytes afile a audioPt], k + 1, advanceRef abefore d, true)

/-- One evaluation of the video track inside the playout loop (lines
2390-2460): like the audio track but with the fixed 90 kHz clock and the
same-timestamp burst loop `while(video && video->ts == ts)` on both the
first-packet path and the paced path. -/
def videoTick (vfile : List Nat) (videoPt : Nat) (full : List FramePacket) (k : Nat)
    (vbefore now : Timeval) : List (List Nat) × Nat × Timeval × Bool :=
  match full.drop k with
  | [] => ([], k, vbefore, false)
  | v :: _ =>
    if k = 0 then
      let run := (full.drop k).takeWhile fun q => q.ts == v.ts
      (run.map fun q => sendPacketBytes vfile q videoPt, k + run.length, now, true)
    else
      let d := tsDiffUs (full.getD (k - 1) default).ts v.ts vkhz
      if elapsedUs vbefore now < d - 5000 then ([], k, vbefore, false)
      else
        let run := (full.drop k).takeWhile fun q => q.ts == v.ts
        (run.map fun q => sendPacketBytes vfile q videoPt, k + run.length,
          advanceRef vbefore d, true)

/-! ## Request handler fragments (`janus_auviousrecordplay_handler`) -/

def ERROR_NOT_FOUND : Nat := 416
def ERROR_INVALID_RECORDING : Nat := 417
def ERROR_RECORDING_EXISTS : Nat := 420

/-- Payload types negotiated for playback (lines 1397-1407): `AUDIO_PT` 111
unless the audio codec has a fixed static payload type, `VIDEO_PT` 100. -/
def AUDIO_PT : Nat := 111

def VIDEO_PT : Nat := 100

/-- `strcasecmp(a, b) == 0`: the two strings agree character by character up
to ASCII case. -/
def caseEq (a b : String) : Bool :=
  a.data.map Char.toLower == b.data.map Char.toLower

def audioPtOf (acodec : Option String) : Nat :=
  match acodec with
  | none => AUDIO_PT
  | some c =>
    if caseEq c "pcmu" then 0
    else if caseEq c "pcma" then 8
    else if caseEq c "g722" then 9
    else AUDIO_PT

/-- What the `play` fragment leaves behind: the per-track frame lists written
into the session, whether `session->recording` was installed and the session
appended to the recording's viewer list, and the request result (error code
or optional warning annotation). -/
structure PlayOutcome where
  aframes : Option FrameHeap
  vframes : Option FrameHeap
  recordingSet : Bool
  viewerAdded : Bool
  result : Except Nat (Option String)

/-- Lines 1546-1578 for a found, offer-bearing recording: build each present
track's index, downgrade a failed track to a warning, and fail with
`INVALID_RECORDING` only when no track yielded frames.  `getF` is
`janus_auviousrecordplay_get_frames` applied to the track's container file. -/
def handlePlay (arcFile vrcFile : Option String)
    (getF : String → Option FrameHeap) : PlayOutcome :=
  let aframes := arcFile.bind getF
  let warning1 : Option String :=
    if arcFile.isSome ∧ aframes.isNone then some "Broken audio file, playing video only"
    else none
  let vframes := vrcFile.bind getF
  let warning2 : Option String :=
    if vrcFile.isSome ∧ vframes.isNone then some "Broken video file, playing audio only"
    else warning1
  if aframes.isNone ∧ vframes.isNone then
    ⟨aframes, vframes, false, false, Except.error ERROR_INVALID_RECORDING⟩
  else
    ⟨aframes, vframes, true, true, Except.ok warning2⟩

/-- Registry operations in program order, for the `record` fragment. -/
inductive RegEvent where
  | lockReg
  | unlockReg
  | lookupId (id : Nat)
  | randomId (id : Nat)
  | createEntity (id : Nat)
  | createFile (id : Nat)
  | insertReg (id : Nat)
deriving DecidableEq

/-- The id-generation loop of lines 1360-1368: draw `janus_random_uint64`
candidates, look each up, and retry while the id is zero or taken.  `none`
models the C loop never terminating because the stream ran out. -/
def pickFreshId (present : Nat → Bool) :
    List Nat → List RegEvent → Option (Nat × List RegEvent)
  | [], _ => none
  | c :: rest, evs =>
    let evs2 := evs ++ [RegEvent.randomId c, RegEvent.lookupId c]
    if c ≠ 0 ∧ present c = false then some (c, evs2)
    else pickFreshId present rest evs2

/-- Lines 1370-1439 once the id is fixed: allocate the recording entity,
create the per-track recorder files, insert into the registry, release the
lock. -/
def finishCreate (registry : List Nat) (id : Nat) (evs : List RegEvent)
    (audio video : Bool) : List Nat × Except Nat Nat × List RegEvent :=
  let evs2 := evs ++ [RegEvent.createEntity id]
  let evs3 := if audio then evs2 ++ [RegEvent.createFile id] else evs2
  let evs4 := if video then evs3 ++ [RegEvent.createFile id] else evs3
  (id :: registry, Except.ok id, evs4 ++ [RegEvent.insertReg id, RegEvent.unlockReg])

/-- The `record` fragment (lines 1344-1368, 1438-1439): take the registry
lock, reject an explicitly requested id that already exists before creating
anything, otherwise generate a fresh nonzero id under the same lock, create
the entity and files and register it. -/
def handleRecordCreate (registry : List Nat) (requested : Option Nat)
    (randoms : List Nat) (audio video : Bool) :
    Option (List Nat × Except Nat Nat × List RegEvent) :=
  let evs0 : List RegEvent := [RegEvent.lockReg]
  match requested with
  | some r =>
    if 0 < r then
      let evs1 := evs0 ++ [RegEvent.lookupId r]
      if r ∈ registry then
        some (registry, Except.error ERROR_RECORDING_EXISTS,
          evs1 ++ [RegEvent.unlockReg])
      else some (finishCreate registry r evs1 audio video)
    else
      match pickFreshId (fun c => decide (c ∈ registry)) randoms evs0 with
      | none => none
      | some (id, evs) => some (finishCreate registry id evs audio video)
  | none =>
    match pickFreshId (fun c => decide (c ∈ registry)) randoms evs0 with
    | none => none
    | some (id, evs) => some (finishCreate registry id evs audio video)

/-! ## Concrete sample containers used by the witnesses -/

/-- Legacy `'E'` main header declaring a video file ("video" payload). -/
def legacyVideoHdr : List Nat :=
  [77, 69, 69, 84, 69, 67, 72, 79, 0, 5, 118, 105, 100, 101, 111]

/-- A media record: 8-byte `'M','E'` magic, big-endian length 16, and a
16-byte RTP header (version 2, payload type 100) with the given sequence
number and timestamp, plus 4 payload bytes. -/
def mediaRec (seq ts : Nat) : List Nat :=
  [77, 69, 69, 84, 69, 67, 72, 79, 0, 16,
   128, 100, seq / 256, seq % 256,
   ts / 16777216, ts / 65536 % 256, ts / 256 % 256, ts % 256,
   0, 0, 0, 1, 0, 0, 0, 0]

/-- An info-header decoder that accepts everything (a well-formed `'J'` info
payload). -/
def piTrue : List Nat → Option Bool := fun _ => some true

/-- A small legacy container with three out-of-order video records. -/
def sampleFile : List Nat :=
  legacyVideoHdr ++ mediaRec 5 2000 ++ mediaRec 3 1000 ++ mediaRec 4 1000

/-- A current-format container: `'J'` info record with payload of length 2,
followed by one media record with sequence 1 and timestamp 100. -/
def sampleJFile : List Nat :=
  [77, 74, 82, 48, 48, 48, 48, 50, 0, 2, 123, 125] ++ mediaRec 1 100

/-! ## Pass-1 bookkeeping lemmas -/

/-- The `first_ts` normalization (lines 2076-2078). -/
def normTs (x : Nat) : Nat := if x > 1000000 then x - 1000000 else x

lemma pass1Step_first (x : Nat) : pass1Step 0 0 0 x = (normTs x, x, 0) := by
  simp [pass1Step, normTs]

lemma pass1Run_cons (x : Nat) (xs : List Nat) :
    pass1Run (x :: xs) =
      xs.foldl (fun s ts => pass1Step s.1 s.2.1 s.2.2 ts) (pass1Step 0 0 0 x) := rfl

lemma getLastD_mem_cons (as : List Nat) (a0 : Nat) : as.getLastD a0 ∈ a0 :: as := by
  rw [List.getLastD_eq_getLast?]
  cases e : as.getLast? with
  | none => simp
  | some z =>
    simp only [Option.getD_some]
    exact List.mem_cons_of_mem _ (List.mem_of_mem_getLast? (e ▸ rfl))

/-- Processing a non-decreasing run never flags a reset, never lowers the
recorded value, and never touches `first_ts` (as long as the incoming
`last_ts` is nonzero and at least the recorded reset value). -/
lemma foldl_pass1_nodrop : ∀ (l : List Nat) (f la r : Nat), la ≠ 0 → r ≤ la →
    (la :: l).Chain' (· ≤ ·) →
    l.foldl (fun s ts => pass1Step s.1 s.2.1 s.2.2 ts) (f, la, r) =
      (f, l.getLastD la, r) := by
  intro l
  induction l with
  | nil => intro f la r _ _ _; rfl
  | cons t ts ih =>
    intro f la r hla hr hc
    rw [List.chain'_cons] at hc
    have h1 : ¬ t < la := by omega
    have h2 : ¬ t < r := by omega
    have hstep : pass1Step f la r t = (f, t, r) := by
      simp [pass1Step, hla, h1, h2]
    rw [List.foldl_cons, hstep, List.getLastD_cons]
    exact ih f t r (by omega) (by omega) hc.2

/-- While `last_ts` stays nonzero, `first_ts` is never modified. -/
lemma foldl_pass1_first : ∀ (l : List Nat) (f la r : Nat), la ≠ 0 →
    (∀ t ∈ l, t ≠ 0) →
    (l.foldl (fun s ts => pass1Step s.1 s.2.1 s.2.2 ts) (f, la, r)).1 = f := by
  intro l
  induction l with
  | nil => intro f la r _ _; rfl
  | cons t ts ih =>
    intro f la r hla hz
    rw [List.foldl_cons]
    have hstep : ∃ r', pass1Step f la r t = (f, t, r') := by
      unfold pass1Step
      rw [if_neg hla]
      split
      · exact ⟨_, rfl⟩
      · exact ⟨_, rfl⟩
    obtain ⟨r', hr'⟩ := hstep
    rw [hr']
    exact ih f t r' (hz t (by simp)) fun x hx => hz x (List.mem_cons_of_mem _ hx)

/-! ## Wall-clock arithmetic lemmas -/

lemma elapsedUs_eq (b n : Timeval) : elapsedUs b n = totalUs n - totalUs b := by
  simp only [elapsedUs, totalUs]
  split <;> ring

lemma totalUs_advanceRef (t : Timeval) (d : Int) (hd : 0 ≤ d) :
    totalUs (advanceRef t d) = totalUs t + d - d / 1000000 := by
  have hm : Int.tmod d 1000000 = d % 1000000 := Int.tmod_eq_emod hd (by norm_num)
  have hv : Int.tdiv d 1000000 = d / 1000000 := Int.tdiv_eq_ediv hd (by norm_num)
  unfold advanceRef
  rw [hm, hv]
  by_cases h1 : t.usec + d % 1000000 > 1000000 <;>
    by_cases h2 : d / 1000000 > 0 <;>
      simp only [h1, h2, if_true, if_false, totalUs] <;>
        omega

lemma wrap64_eq (x : Int) (h1 : 0 ≤ x) (h2 : x < 2 ^ 63) : wrap64 x = x := by
  unfold wrap64
  have e1 : (2:Int) ^ 63 = 9223372036854775808 := by norm_num
  have e2 : (2:Int) ^ 64 = 18446744073709551616 := by norm_num
  rw [e1] at h2
  rw [e1, e2]
  omega

lemma tsDiffUs_eq (prevTs curTs : Nat) (khz : Int) (hk : 0 < khz)
    (hpc : prevTs ≤ curTs) (hcb : curTs ≤ 2 ^ 33) :
    tsDiffUs prevTs curTs khz = ((curTs : Int) - prevTs) * 1000 / khz := by
  have hd : (0:Int) ≤ (curTs : Int) - prevTs := by
    have : (prevTs : Int) ≤ curTs := by exact_mod_cast hpc
    omega
  have hb0 : (curTs : Int) ≤ 2 ^ 33 := by exact_mod_cast hcb
  have hb : (curTs : Int) - prevTs < 2 ^ 63 := by
    have e1 : (2:Int) ^ 33 = 8589934592 := by norm_num
    have e2 : (2:Int) ^ 63 = 9223372036854775808 := by norm_num
    rw [e1] at hb0; rw [e2]
    omega
  have hb2 : ((curTs : Int) - prevTs) * 1000 < 2 ^ 63 := by
    have e1 : (2:Int) ^ 33 = 8589934592 := by norm_num
    have e2 : (2:Int) ^ 63 = 9223372036854775808 := by norm_num
    have : (prevTs : Int) ≥ 0 := by positivity
    rw [e1] at hb0; rw [e2]
    omega
  unfold tsDiffUs
  rw [wrap64_eq _ hd hb, wrap64_eq _ (by positivity) hb2,
    Int.tdiv_eq_ediv (by positivity) (le_of_lt hk)]

lemma tsDiffUs_nonneg (prevTs curTs : Nat) (khz : Int) (hk : 0 < khz)
    (hpc : prevTs ≤ curTs) (hcb : curTs ≤ 2 ^ 33) :
    0 ≤ tsDiffUs prevTs curTs khz := by
  rw [tsDiffUs_eq prevTs curTs khz hk hpc hcb]
  have : (prevTs : Int) ≤ curTs := by exact_mod_cast hpc
  have h1 : (0:Int) ≤ ((curTs : Int) - prevTs) * 1000 := by omega
  exact Int.ediv_nonneg h1 (le_of_lt hk)

/-! ## Claims -/

/-- C1: for every container file accepted by the frame index builder, the
returned FramePacket list is sorted non-decreasing by extended timestamp, with
equal-timestamp neighbours never inverted under the wraparound-aware sequence
comparison; `IsChain` exhibits the finite, duplicate-free node chain from
`head` to `last` that covers every allocated node with `prev` inverse to
`next` — the prev/next links are consistent and the list is non-circular. -/
theorem C1_index_sorted_wellLinked (pi : List Nat → Option Bool) (file : List Nat)
    (hp : FrameHeap) (hok : getFrames pi file = some hp) :
    ∃ ixs, IsChain hp ixs ∧
      (chainPkts hp ixs).Chain'
        (fun a b => a.ts < b.ts ∨ (a.ts = b.ts ∧ ¬ SeqWrapPrec b.seq a.seq)) :=
  getFrames_good pi file hp hok

/-- Witness for C1 on a concrete legacy container with out-of-order media
records. -/
theorem C1_index_sorted_wellLinked_witness :
    ∃ hp ixs, getFrames piTrue sampleFile = some hp ∧ IsChain hp ixs ∧
      (chainPkts hp ixs).Chain'
        (fun a b => a.ts < b.ts ∨ (a.ts = b.ts ∧ ¬ SeqWrapPrec b.seq a.seq)) := by
  rcases hE : getFrames piTrue sampleFile with _ | hp
  · exact absurd hE (by decide)
  · obtain ⟨ixs, hc, hs⟩ := C1_index_sorted_wellLinked piTrue sampleFile hp hE
    exact ⟨hp, ixs, rfl, hc, hs⟩

/-- C4 (code bug): in pass 1 the `'J'` info-header branch has no `continue`,
so after parsing the info header the builder reads the 16 bytes that follow
the info payload — the next record's magic, reserved bytes and length — as an
RTP header and seeds `first_ts`/`last_ts` from them.  On `sampleJFile` (info
record followed by one media record with timestamp 100) the code leaves
`first_ts = 1161037327`, the big-endian value of the bytes `'E','C','H','O'`
of the following record's magic minus the 1000000 headroom, not a value
derived from any media timestamp (the claim demands `first_ts = 100`). -/
theorem C4_info_header_contaminates_pass1 :
    (pass1Go piTrue sampleJFile (sampleJFile.length + 1)
        ⟨0, false, 0, 0, 0, 0, 0, List.replicate 1500 0⟩).map (fun st => st.firstTs) =
      some 1161037327 ∧
    (pass1Go piTrue sampleJFile (sampleJFile.length + 1)
        ⟨0, false, 0, 0, 0, 0, 0, List.replicate 1500 0⟩).map (fun st => st.firstTs) ≠
      some 100 := by
  constructor
  · rfl
  · decide

/-- C2 counterexample: on the timestamp sequence `[3000000000, 0, 100]` the
first timestamp drops by more than 2×10^9 (a reset in the claim's sense), yet
the recorded reset value is the sentinel 0, so pass 2 extends every raw value
to itself: the post-reset records 0 and 100 are not given the 2^32 offset the
claim requires, and the extended timeline is not monotonic. -/
theorem C2_counterexample :
    (pass1Run [3000000000, 0, 100]).2.2 = 0 ∧
    2000000000 < 3000000000 - 0 ∧
    [3000000000, 0, 100].map
        (extendTs (pass1Run [3000000000, 0, 100]).2.2 (pass1Run [3000000000, 0, 100]).1) =
      [3000000000, 0, 100] ∧
    ¬ ([3000000000, 0, 100].map
        (extendTs (pass1Run [3000000000, 0, 100]).2.2
          (pass1Run [3000000000, 0, 100]).1)).Chain' (· ≤ ·) := by
  refine ⟨by decide, by decide, by decide, ?_⟩
  intro hchain
  rw [show [3000000000, 0, 100].map
      (extendTs (pass1Run [3000000000, 0, 100]).2.2 (pass1Run [3000000000, 0, 100]).1) =
      [3000000000, 0, 100] by decide] at hchain
  rw [List.chain'_cons] at hchain
  omega

/-- C2 (amended): in pass 2 the extended timestamp equals the raw value when
pass 1 recorded no reset value (`reset = 0` — which is also the case when the
first post-drop timestamp is itself 0); when a nonzero reset value was
recorded, a raw value above `first_ts` stays raw and one at or below
`first_ts` gets 2^32 added.  A container whose timestamps wrap from a
non-decreasing run starting above 10^6 down to a non-decreasing run of small
*nonzero* values (drop exceeding 2×10^9) yields exactly this classification
and a monotonic non-decreasing extended timeline. -/
theorem C2_extended_timestamps_amended (a0 b0 : Nat) (as bs : List Nat)
    (ha0 : 1000000 < a0) (hb0 : 0 < b0)
    (hAsort : (a0 :: as).Chain' (· ≤ ·)) (hBsort : (b0 :: bs).Chain' (· ≤ ·))
    (hdrop : 2000000000 + b0 < as.getLastD a0)
    (hBsmall : ∀ b ∈ b0 :: bs, b ≤ a0 - 1000000)
    (hA32 : ∀ a ∈ a0 :: as, a < 4294967296) :
    (pass1Run ((a0 :: as) ++ b0 :: bs)).2.2 = b0 ∧
    (pass1Run ((a0 :: as) ++ b0 :: bs)).1 = a0 - 1000000 ∧
    (∀ a ∈ a0 :: as, extendTs b0 (a0 - 1000000) a = a) ∧
    (∀ b ∈ b0 :: bs, extendTs b0 (a0 - 1000000) b = 4294967296 + b) ∧
    (((a0 :: as) ++ b0 :: bs).map (extendTs b0 (a0 - 1000000))).Chain' (· ≤ ·) := by
  have hPairA : (a0 :: as).Pairwise (· ≤ ·) := List.chain'_iff_pairwise.mp hAsort
  have hA0le : ∀ a ∈ a0 :: as, a0 ≤ a := by
    intro a ha
    rcases List.mem_cons.mp ha with rfl | ha'
    · exact le_refl a
    · exact (List.pairwise_cons.mp hPairA).1 a ha'
  have haLast : a0 ≤ as.getLastD a0 := hA0le _ (getLastD_mem_cons as a0)
  have hfoldA : pass1Run (a0 :: as) = (normTs a0, as.getLastD a0, 0) := by
    rw [pass1Run_cons, pass1Step_first]
    exact foldl_pass1_nodrop as (normTs a0) a0 0 (by omega) (by omega) hAsort
  have hsplit : pass1Run ((a0 :: as) ++ b0 :: bs) =
      (b0 :: bs).foldl (fun s ts => pass1Step s.1 s.2.1 s.2.2 ts) (pass1Run (a0 :: as)) := by
    unfold pass1Run
    rw [List.foldl_append]
  have hstepb : pass1Step (normTs a0) (as.getLastD a0) 0 b0 = (normTs a0, b0, b0) := by
    have hL : ¬ as.getLastD a0 = 0 := by omega
    have h1 : b0 < as.getLastD a0 := by omega
    have h2 : as.getLastD a0 - b0 > 2000000000 := by omega
    unfold pass1Step
    rw [if_neg hL, if_pos h1, if_pos h2]
  have hfold : pass1Run ((a0 :: as) ++ b0 :: bs) = (normTs a0, bs.getLastD b0, b0) := by
    rw [hsplit, hfoldA, List.foldl_cons, hstepb]
    exact foldl_pass1_nodrop bs (normTs a0) b0 b0 (by omega) (le_refl b0) hBsort
  have hnorm : normTs a0 = a0 - 1000000 := by simp [normTs, ha0]
  have hb0ne : ¬ b0 = 0 := by omega
  have hextA : ∀ a ∈ a0 :: as, extendTs b0 (a0 - 1000000) a = a := by
    intro a ha
    have h1 : a0 ≤ a := hA0le a ha
    have h2 : a > a0 - 1000000 := by omega
    simp [extendTs, hb0ne, h2]
  have hextB : ∀ b ∈ b0 :: bs, extendTs b0 (a0 - 1000000) b = 4294967296 + b := by
    intro b hb
    have h1 : b ≤ a0 - 1000000 := hBsmall b hb
    have h2 : ¬ b > a0 - 1000000 := by omega
    simp [extendTs, hb0ne, h2]
  refine ⟨by rw [hfold], by rw [hfold, hnorm], hextA, hextB, ?_⟩
  rw [List.map_append]
  have hmapA : (a0 :: as).map (extendTs b0 (a0 - 1000000)) = a0 :: as := by
    rw [List.map_congr_left hextA, List.map_id']
  have hmapB : (b0 :: bs).map (extendTs b0 (a0 - 1000000)) =
      (b0 :: bs).map (fun b => 4294967296 + b) := by
    rw [List.map_congr_left hextB]
  rw [hmapA, hmapB, List.chain'_append]
  refine ⟨hAsort, ?_, ?_⟩
  · rw [List.chain'_map]
    exact hBsort.imp fun hab => by omega
  · intro x hx y hy
    rw [List.getLast?_cons, Option.mem_some_iff] at hx
    simp only [List.map_cons, List.head?_cons, Option.mem_some_iff] at hy
    have hxmem : x ∈ a0 :: as := by
      rw [← hx, ← List.getLastD_eq_getLast?]
      exact getLastD_mem_cons as a0
    have hx32 : x < 4294967296 := hA32 x hxmem
    omega

/-- C3: with equal extended timestamps the insertion orders packets by the
wraparound-aware sequence comparison — a numeric gap above 10000 reverses the
naive order — and in particular two records with identical timestamp and
sequence numbers 65530 and 10 end up with 65530 before 10, whichever order
the file presents them in. -/
theorem C3_wraparound_tie_break :
    (∀ x y : Nat, y < 65536 → x < y → 10000 < y - x →
      SeqWrapPrec y x ∧ ¬ SeqWrapPrec x y) ∧
    (∀ ts l1 o1 l2 o2 : Nat,
      chainList (insertPacket (insertPacket FrameHeap.empty ⟨65530, ts, l1, o1⟩)
          ⟨10, ts, l2, o2⟩) =
        [⟨65530, ts, l1, o1⟩, ⟨10, ts, l2, o2⟩] ∧
      chainList (insertPacket (insertPacket FrameHeap.empty ⟨10, ts, l2, o2⟩)
          ⟨65530, ts, l1, o1⟩) =
        [⟨65530, ts, l1, o1⟩, ⟨10, ts, l2, o2⟩]) := by
  constructor
  · intro x y hy hxy hgap
    unfold SeqWrapPrec seqDist
    constructor
    · right
      constructor
      · omega
      · omega
    · intro hcon
      rcases hcon with ⟨_, h2⟩ | ⟨h1, _⟩
      · omega
      · omega
  · intro ts l1 o1 l2 o2
    constructor
    · have h1 : insertPacket FrameHeap.empty ⟨65530, ts, l1, o1⟩ =
          ⟨[⟨⟨65530, ts, l1, o1⟩, none, none⟩], some 0, some 0⟩ := rfl
      rw [h1]
      have h2 : insertPacket
          (⟨[⟨⟨65530, ts, l1, o1⟩, none, none⟩], some 0, some 0⟩ : FrameHeap)
          ⟨10, ts, l2, o2⟩ =
          scanBack ⟨[⟨⟨65530, ts, l1, o1⟩, none, none⟩,
            ⟨⟨10, ts, l2, o2⟩, none, none⟩], some 0, some 0⟩ ⟨10, ts, l2, o2⟩ 1 2
            (some 0) := rfl
      rw [h2, scanBack_succ_some]
      have hsw : SeqWrapPrec 65530 10 := by
        unfold SeqWrapPrec seqDist
        right
        constructor
        · omega
        · omega
      have hcond : ShouldInsertAfter
          (getNode (⟨[⟨⟨65530, ts, l1, o1⟩, none, none⟩,
            ⟨⟨10, ts, l2, o2⟩, none, none⟩], some 0, some 0⟩ : FrameHeap) 0).pkt
          ⟨10, ts, l2, o2⟩ := Or.inr ⟨rfl, hsw⟩
      rw [if_pos hcond]
      rfl
    · have h1 : insertPacket FrameHeap.empty ⟨10, ts, l2, o2⟩ =
          ⟨[⟨⟨10, ts, l2, o2⟩, none, none⟩], some 0, some 0⟩ := rfl
      rw [h1]
      have h2 : insertPacket
          (⟨[⟨⟨10, ts, l2, o2⟩, none, none⟩], some 0, some 0⟩ : FrameHeap)
          ⟨65530, ts, l1, o1⟩ =
          scanBack ⟨[⟨⟨10, ts, l2, o2⟩, none, none⟩,
            ⟨⟨65530, ts, l1, o1⟩, none, none⟩], some 0, some 0⟩ ⟨65530, ts, l1, o1⟩ 1 2
            (some 0) := rfl
      rw [h2, scanBack_succ_some]
      have hns : ¬ SeqWrapPrec 10 65530 := by
        unfold SeqWrapPrec seqDist
        intro hcon
        rcases hcon with ⟨_, h2⟩ | ⟨h1, _⟩
        · omega
        · omega
      have hcond : ¬ ShouldInsertAfter
          (getNode (⟨[⟨⟨10, ts, l2, o2⟩, none, none⟩,
            ⟨⟨65530, ts, l1, o1⟩, none, none⟩], some 0, some 0⟩ : FrameHeap) 0).pkt
          ⟨65530, ts, l1, o1⟩ := by
        intro hcon
        rcases hcon with h | ⟨_, h⟩
        · exact lt_irrefl ts h
        · exact hns h
      rw [if_neg hcond]
      rfl

/-- Witness for C3's universally quantified parts at a concrete input. -/
theorem C3_wraparound_tie_break_witness :
    (SeqWrapPrec 65530 10 ∧ ¬ SeqWrapPrec 10 65530) ∧
    chainList (insertPacket (insertPacket FrameHeap.empty ⟨65530, 7000, 1, 2⟩)
        ⟨10, 7000, 3, 4⟩) = [⟨65530, 7000, 1, 2⟩, ⟨10, 7000, 3, 4⟩] := by
  constructor
  · exact C3_wraparound_tie_break.1 10 65530 (by norm_num) (by norm_num) (by norm_num)
  · exact (C3_wraparound_tie_break.2 7000 1 2 3 4).1

/-- Witness for C2 (amended) on a concrete wrapped container. -/
theorem C2_extended_timestamps_amended_witness :
    (pass1Run ([4000000000, 4100000000] ++ [5, 50])).2.2 = 5 ∧
    (pass1Run ([4000000000, 4100000000] ++ [5, 50])).1 = 3999000000 := by
  have h := C2_extended_timestamps_amended 4000000000 5 [4100000000] [50]
    (by norm_num) (by norm_num)
    (by rw [List.chain'_cons]; exact ⟨by norm_num, List.chain'_singleton _⟩)
    (by rw [List.chain'_cons]; exact ⟨by norm_num, List.chain'_singleton _⟩)
    (by decide) (by decide) (by decide)
  exact ⟨h.1, h.2.1.trans (by norm_num)⟩

/-- Non-decreasing timestamps never leave a recorded reset behind. -/
lemma foldl_pass1_reset0 : ∀ (l : List Nat) (f la : Nat), (la :: l).Chain' (· ≤ ·) →
    (l.foldl (fun s ts => pass1Step s.1 s.2.1 s.2.2 ts) (f, la, 0)).2.2 = 0 := by
  intro l
  induction l with
  | nil => intro f la _; rfl
  | cons t ts ih =>
    intro f la hc
    rw [List.chain'_cons] at hc
    rw [List.foldl_cons]
    by_cases hla : la = 0
    · subst hla
      rw [show pass1Step f 0 0 t = (normTs t, t, 0) from by simp [pass1Step, normTs]]
      exact ih _ t hc.2
    · have h1 : ¬ t < la := by omega
      have h2 : ¬ t < 0 := by omega
      rw [show pass1Step f la 0 t = (f, t, 0) from by simp [pass1Step, hla, h1, h2]]
      exact ih f t hc.2

/-- Every pass-1 step stores the incoming timestamp as the new `last_ts`. -/
lemma pass1Step_lastTs (f la r ts : Nat) : (pass1Step f la r ts).2.1 = ts := by
  unfold pass1Step
  split
  · rfl
  · split <;> rfl

/-- After processing a stream ending in `x`, `last_ts` is `x` — in particular
a trailing raw timestamp of 0 re-arms the `last_ts == 0` first-packet test. -/
lemma foldl_pass1_lastTs (l : List Nat) (s : Nat × Nat × Nat) (x : Nat) :
    ((l ++ [x]).foldl (fun s ts => pass1Step s.1 s.2.1 s.2.2 ts) s).2.1 = x := by
  rw [List.foldl_append]
  exact pass1Step_lastTs _ _ _ _

/-- C5 counterexample: after the reset is recorded at 500000000, the even
smaller post-reset timestamp 499000000 (a drop of only 10^6 below its
predecessor) does NOT update the recorded value downward, contrary to the
claim's "updated downward whenever an even smaller post-reset timestamp
appears". -/
theorem C5_counterexample :
    (pass1Run [3000000000, 500000000, 499000000]).2.2 = 500000000 ∧
    (pass1Run [3000000000, 500000000, 499000000]).2.2 ≠ 499000000 ∧
    499000000 < 500000000 := by decide

/-- C5 (amended): `first_ts` is the normalization (reduce by 10^6 when above
10^6) of the first timestamp only while no timestamp is zero — the
first-packet test is `last_ts == 0`, so a raw timestamp of 0 re-arms it and
`first_ts` is re-seeded from the timestamp that follows the last zero of the
stream; a non-decreasing timestamp sequence never records a reset; a drop of
at most 2×10^9 below the immediate predecessor never changes the recorded
value (even if the new timestamp is smaller than it); every drop of more than
2×10^9 overwrites the recorded value with the new timestamp; and a timestamp
at or above its predecessor lowers the recorded value exactly when it is
smaller than it. -/
theorem C5_reset_bookkeeping_amended :
    (∀ (x : Nat) (xs : List Nat), (∀ t ∈ x :: xs, t ≠ 0) →
      (pass1Run (x :: xs)).1 = normTs x) ∧
    (∀ (l : List Nat) (t : Nat) (ys : List Nat), t ≠ 0 → (∀ y ∈ ys, y ≠ 0) →
      (pass1Run (l ++ 0 :: t :: ys)).1 = normTs t) ∧
    (∀ l : List Nat, l.Chain' (· ≤ ·) → (pass1Run l).2.2 = 0) ∧
    (∀ f la r ts : Nat, la ≠ 0 → ts < la → la - ts ≤ 2000000000 →
      (pass1Step f la r ts).2.2 = r) ∧
    (∀ f la r ts : Nat, la ≠ 0 → ts < la → 2000000000 < la - ts →
      (pass1Step f la r ts).2.2 = ts) ∧
    (∀ f la r ts : Nat, la ≠ 0 → la ≤ ts →
      (pass1Step f la r ts).2.2 = if ts < r then ts else r) := by
  refine ⟨?_, ?_, ?_, ?_, ?_, ?_⟩
  · intro x xs hz
    rw [pass1Run_cons, pass1Step_first]
    exact foldl_pass1_first xs (normTs x) x 0 (hz x (by simp))
      (fun t ht => hz t (List.mem_cons_of_mem _ ht))
  · intro l t ys ht hys
    have hsplit : pass1Run (l ++ 0 :: t :: ys) =
        (t :: ys).foldl (fun s ts => pass1Step s.1 s.2.1 s.2.2 ts)
          (pass1Run (l ++ [0])) := by
      unfold pass1Run
      rw [show l ++ 0 :: t :: ys = (l ++ [0]) ++ t :: ys from by simp,
        List.foldl_append]
    have hla0 : (pass1Run (l ++ [0])).2.1 = 0 := foldl_pass1_lastTs l (0, 0, 0) 0
    have hstep : pass1Step (pass1Run (l ++ [0])).1 0 (pass1Run (l ++ [0])).2.2 t =
        (normTs t, t, (pass1Run (l ++ [0])).2.2) := by
      unfold pass1Step normTs
      rw [if_pos rfl]
    rw [hsplit, List.foldl_cons]
    rw [hla0, hstep]
    exact foldl_pass1_first ys (normTs t) t (pass1Run (l ++ [0])).2.2 ht hys
  · intro l hl
    cases l with
    | nil => rfl
    | cons x xs =>
      rw [pass1Run_cons, pass1Step_first]
      exact foldl_pass1_reset0 xs (normTs x) x hl
  · intro f la r ts hla hlt hle
    simp [pass1Step, hla, hlt, (show ¬ la - ts > 2000000000 by omega)]
  · intro f la r ts hla hlt hgt
    simp [pass1Step, hla, hlt, hgt]
  · intro f la r ts hla hge
    simp [pass1Step, hla, (show ¬ ts < la by omega)]

/-- Witness for C5 (amended) at concrete inputs, including the re-seeding of
`first_ts` after a mid-stream zero: on [5, 0, 7] pass 1 ends with
`first_ts = 7`, not 5. -/
theorem C5_reset_bookkeeping_amended_witness :
    (pass1Run [2000000, 3000000]).1 = 1000000 ∧
    (pass1Run [5, 0, 7]).1 = 7 ∧
    (pass1Run [5, 7, 9]).2.2 = 0 ∧
    (pass1Step 1 500000000 500000000 499000000).2.2 = 500000000 ∧
    (pass1Step 1 3000000000 0 500000000).2.2 = 500000000 ∧
    (pass1Step 1 500000000 500000000 600000000).2.2 = 500000000 := by
  refine ⟨?_, ?_, ?_, ?_, ?_, ?_⟩
  · have h := C5_reset_bookkeeping_amended.1 2000000 [3000000] (by decide)
    rw [h]
    norm_num [normTs]
  · have h := C5_reset_bookkeeping_amended.2.1 [5] 7 [] (by decide)
      (by intro y hy; simp at hy)
    exact h
  · refine (C5_reset_bookkeeping_amended.2.2.1 [5, 7, 9] ?_)
    rw [List.chain'_cons, List.chain'_cons]
    exact ⟨by norm_num, by norm_num, List.chain'_singleton _⟩
  · exact C5_reset_bookkeeping_amended.2.2.2.1 1 500000000 500000000 499000000
      (by norm_num) (by norm_num) (by norm_num)
  · exact C5_reset_bookkeeping_amended.2.2.2.2.1 1 3000000000 0 500000000
      (by norm_num) (by norm_num) (by norm_num)
  · have h := C5_reset_bookkeeping_amended.2.2.2.2.2 1 500000000 500000000 600000000
      (by norm_num) (by norm_num)
    rw [h]
    norm_num

lemma getD_drop_cons (full : List FramePacket) (k : Nat) (hklt : k < full.length) :
    full.drop k = full.getD k default :: full.drop (k + 1) := by
  rw [List.drop_eq_getElem_cons hklt]
  rw [List.getD_eq_getElem full default hklt]

lemma akhzOf_pos (apt : Nat) : 0 < akhzOf apt := by
  unfold akhzOf
  split <;> norm_num

/-- One-step unfolding of the audio track evaluation at a non-first cursor. -/
lemma audioTick_paced (afile : List Nat) (apt : Nat) (full : List FramePacket)
    (k : Nat) (ab now : Timeval) (hk : 0 < k) (hklt : k < full.length) :
    audioTick afile apt full k ab now =
      (if elapsedUs ab now <
          tsDiffUs (full.getD (k - 1) default).ts (full.getD k default).ts
            (akhzOf apt) - 5000
       then ([], k, ab, false)
       else ([sendPacketBytes afile (full.getD k default) apt], k + 1,
         advanceRef ab
           (tsDiffUs (full.getD (k - 1) default).ts (full.getD k default).ts
             (akhzOf apt)),
         true)) := by
  unfold audioTick
  rw [getD_drop_cons full k hklt]
  dsimp only
  rw [if_neg (show ¬ k = 0 by omega)]

/-- One-step unfolding of the video track evaluation at a non-first cursor. -/
lemma videoTick_paced (vfile : List Nat) (vpt : Nat) (full : List FramePacket)
    (k : Nat) (vb now : Timeval) (hk : 0 < k) (hklt : k < full.length) :
    videoTick vfile vpt full k vb now =
      (if elapsedUs vb now <
          tsDiffUs (full.getD (k - 1) default).ts (full.getD k default).ts vkhz - 5000
       then ([], k, vb, false)
       else
        (((full.drop k).takeWhile fun q => q.ts == (full.getD k default).ts).map
            fun q => sendPacketBytes vfile q vpt,
          k + ((full.drop k).takeWhile fun q => q.ts == (full.getD k default).ts).length,
          advanceRef vb
            (tsDiffUs (full.getD (k - 1) default).ts (full.getD k default).ts vkhz),
          true)) := by
  unfold videoTick
  rw [getD_drop_cons full k hklt]
  dsimp only
  rw [if_neg (show ¬ k = 0 by omega)]

/-- C6 counterexample: with an 8 kHz audio clock and a timestamp gap of 8000
(an expected gap of exactly one second), the tick sends and advances the
reference instant by 999999 µs, not by the full 1000000 µs gap: the claim's
"advances the reference instant by exactly expectedGap" fails. -/
theorem C6_counterexample :
    (audioTick [] 0 [⟨0, 0, 0, 0⟩, ⟨1, 8000, 0, 0⟩] 1 ⟨0, 0⟩ ⟨1, 0⟩).2.2.2 = true ∧
    tsDiffUs 0 8000 (akhzOf 0) = 1000000 ∧
    totalUs (audioTick [] 0 [⟨0, 0, 0, 0⟩, ⟨1, 8000, 0, 0⟩] 1 ⟨0, 0⟩ ⟨1, 0⟩).2.2.1 =
      999999 ∧
    totalUs (⟨0, 0⟩ : Timeval) + 1000000 ≠ 999999 := by decide

/-- C6 (amended): for every non-first packet the scheduler computes
`expectedGap = (cur − prev) × 1000 / clockRateKHz` µs with an 8 kHz clock for
audio payload types 0, 8, 9, 48 kHz for other audio, and 90 kHz for video; it
defers exactly when elapsed real time since the reference instant is below
`expectedGap − 5000` µs, and otherwise transmits and advances the reference
instant by `expectedGap − expectedGap/10^6` µs (exactly `expectedGap` only
when the gap is below one second) — never by the measured elapsed time. -/
theorem C6_pacing_amended :
    (∀ apt : Nat, akhzOf apt = if apt = 0 ∨ apt = 8 ∨ apt = 9 then 8 else 48) ∧
    vkhz = 90 ∧
    (∀ (afile : List Nat) (apt : Nat) (full : List FramePacket) (k : Nat)
        (ab now : Timeval), 0 < k → k < full.length →
      (full.getD (k - 1) default).ts ≤ (full.getD k default).ts →
      (full.getD k default).ts ≤ 2 ^ 33 →
      tsDiffUs (full.getD (k - 1) default).ts (full.getD k default).ts (akhzOf apt) =
          (((full.getD k default).ts : Int) - ((full.getD (k - 1) default).ts : Int)) *
            1000 / akhzOf apt ∧
      ((audioTick afile apt full k ab now).2.2.2 = false ↔
        totalUs now - totalUs ab <
          tsDiffUs (full.getD (k - 1) default).ts (full.getD k default).ts
            (akhzOf apt) - 5000) ∧
      (¬ totalUs now - totalUs ab <
          tsDiffUs (full.getD (k - 1) default).ts (full.getD k default).ts
            (akhzOf apt) - 5000 →
        totalUs (audioTick afile apt full k ab now).2.2.1 =
            totalUs ab +
              tsDiffUs (full.getD (k - 1) default).ts (full.getD k default).ts
                (akhzOf apt) -
              tsDiffUs (full.getD (k - 1) default).ts (full.getD k default).ts
                (akhzOf apt) / 1000000 ∧
        (audioTick afile apt full k ab now).2.1 = k + 1 ∧
        (audioTick afile apt full k ab now).1 =
          [sendPacketBytes afile (full.getD k default) apt])) ∧
    (∀ (vfile : List Nat) (vpt : Nat) (full : List FramePacket) (k : Nat)
        (vb now : Timeval), 0 < k → k < full.length →
      (full.getD (k - 1) default).ts ≤ (full.getD k default).ts →
      (full.getD k default).ts ≤ 2 ^ 33 →
      ((videoTick vfile vpt full k vb now).2.2.2 = false ↔
        totalUs now - totalUs vb <
          tsDiffUs (full.getD (k - 1) default).ts (full.getD k default).ts vkhz -
            5000) ∧
      (¬ totalUs now - totalUs vb <
          tsDiffUs (full.getD (k - 1) default).ts (full.getD k default).ts vkhz -
            5000 →
        totalUs (videoTick vfile vpt full k vb now).2.2.1 =
          totalUs vb +
            tsDiffUs (full.getD (k - 1) default).ts (full.getD k default).ts vkhz -
            tsDiffUs (full.getD (k - 1) default).ts (full.getD k default).ts vkhz /
              1000000)) := by
  refine ⟨fun apt => rfl, rfl, ?_, ?_⟩
  · intro afile apt full k ab now hk hklt hmono hbound
    have hkhz := akhzOf_pos apt
    have hgE := tsDiffUs_eq (full.getD (k - 1) default).ts (full.getD k default).ts
      (akhzOf apt) hkhz hmono hbound
    have hgNN := tsDiffUs_nonneg (full.getD (k - 1) default).ts
      (full.getD k default).ts (akhzOf apt) hkhz hmono hbound
    have htick := audioTick_paced afile apt full k ab now hk hklt
    refine ⟨hgE, ?_, ?_⟩
    · rw [htick]
      by_cases hcond : elapsedUs ab now <
          tsDiffUs (full.getD (k - 1) default).ts (full.getD k default).ts
            (akhzOf apt) - 5000
      · rw [if_pos hcond]
        have hcond' := hcond
        rw [elapsedUs_eq] at hcond'
        exact iff_of_true rfl hcond'
      · rw [if_neg hcond]
        have hcond' := hcond
        rw [elapsedUs_eq] at hcond'
        exact iff_of_false (by simp) hcond'
    · intro hnot
      have hcond : ¬ elapsedUs ab now <
          tsDiffUs (full.getD (k - 1) default).ts (full.getD k default).ts
            (akhzOf apt) - 5000 := by
        rw [elapsedUs_eq]; exact hnot
      rw [htick, if_neg hcond]
      exact ⟨totalUs_advanceRef ab _ hgNN, rfl, rfl⟩
  · intro vfile vpt full k vb now hk hklt hmono hbound
    have hkhz : (0:Int) < vkhz := by norm_num [vkhz]
    have hgNN := tsDiffUs_nonneg (full.getD (k - 1) default).ts
      (full.getD k default).ts vkhz hkhz hmono hbound
    have htick := videoTick_paced vfile vpt full k vb now hk hklt
    constructor
    · rw [htick]
      by_cases hcond : elapsedUs vb now <
          tsDiffUs (full.getD (k - 1) default).ts (full.getD k default).ts vkhz - 5000
      · rw [if_pos hcond]
        have hcond' := hcond
        rw [elapsedUs_eq] at hcond'
        exact iff_of_true rfl hcond'
      · rw [if_neg hcond]
        have hcond' := hcond
        rw [elapsedUs_eq] at hcond'
        exact iff_of_false (by simp) hcond'
    · intro hnot
      have hcond : ¬ elapsedUs vb now <
          tsDiffUs (full.getD (k - 1) default).ts (full.getD k default).ts vkhz -
            5000 := by
        rw [elapsedUs_eq]; exact hnot
      rw [htick, if_neg hcond]
      exact totalUs_advanceRef vb _ hgNN

/-- Witness for C6 (amended): an audio tick arriving 500 ms into a 1 s gap is
deferred. -/
theorem C6_pacing_amended_witness :
    (audioTick [] 8 [⟨0, 100, 0, 0⟩, ⟨1, 8100, 0, 0⟩] 1 ⟨0, 0⟩ ⟨0, 500000⟩).2.2.2 =
      false := by
  have h := (C6_pacing_amended.2.2.1 [] 8 [⟨0, 100, 0, 0⟩, ⟨1, 8100, 0, 0⟩] 1
    ⟨0, 0⟩ ⟨0, 500000⟩ (by norm_num) (by norm_num) (by decide) (by decide)).2.1
  exact h.mpr (by decide)

lemma dropWhile_head?_false {α : Type} (p : α → Bool) :
    ∀ (l : List α) (x : α), (l.dropWhile p).head? = some x → p x = false := by
  intro l
  induction l with
  | nil => intro x hx; simp at hx
  | cons a t ih =>
    intro x hx
    rw [List.dropWhile_cons] at hx
    by_cases hp : p a = true
    · rw [if_pos hp] at hx
      exact ih x hx
    · rw [if_neg hp] at hx
      simp only [List.head?_cons, Option.some.injEq] at hx
      subst hx
      simpa using hp

lemma drop_after_run (full : List FramePacket) (k : Nat) (p : FramePacket → Bool) :
    full.drop (k + ((full.drop k).takeWhile p).length) = (full.drop k).dropWhile p := by
  have h : (((full.drop k).takeWhile p ++ (full.drop k).dropWhile p).drop
      ((full.drop k).takeWhile p).length) = (full.drop k).dropWhile p :=
    List.drop_left _ _
  rw [List.takeWhile_append_dropWhile, List.drop_drop] at h
  rw [show k + ((full.drop k).takeWhile p).length =
    ((full.drop k).takeWhile p).length + k from by omega]
  first
  | exact h
  | (rw [Nat.add_comm] at h; exact h)

/-- C7: whenever the video track decides to send, it sends the entire
consecutive run of packets sharing the current packet's extended timestamp in
the same tick (the run is nonempty and the cursor advances past all of it),
and the next packet at the new cursor — if any — has a different extended
timestamp: a same-timestamp run is never split across ticks. -/
theorem C7_video_burst (vfile : List Nat) (vpt : Nat) (full : List FramePacket)
    (k : Nat) (vb now : Timeval) (hk : k < full.length)
    (hsent : (videoTick vfile vpt full k vb now).2.2.2 = true) :
    (videoTick vfile vpt full k vb now).1 =
      ((full.drop k).takeWhile fun q => q.ts == (full.getD k default).ts).map
        (fun q => sendPacketBytes vfile q vpt) ∧
    (videoTick vfile vpt full k vb now).2.1 =
      k + ((full.drop k).takeWhile fun q => q.ts == (full.getD k default).ts).length ∧
    1 ≤ ((full.drop k).takeWhile fun q => q.ts == (full.getD k default).ts).length ∧
    (∀ r ∈ (full.drop
        (k + ((full.drop k).takeWhile fun q =>
          q.ts == (full.getD k default).ts).length)).head?,
      r.ts ≠ (full.getD k default).ts) := by
  have hrun : (full.drop k).takeWhile (fun q => q.ts == (full.getD k default).ts) =
      full.getD k default ::
        (full.drop (k + 1)).takeWhile (fun q => q.ts == (full.getD k default).ts) := by
    rw [getD_drop_cons full k hk, List.takeWhile_cons, if_pos (by simp)]
  have hmax : ∀ r ∈ (full.drop
      (k + ((full.drop k).takeWhile fun q =>
        q.ts == (full.getD k default).ts).length)).head?,
      r.ts ≠ (full.getD k default).ts := by
    intro r hr
    rw [drop_after_run] at hr
    have := dropWhile_head?_false _ _ r hr
    simpa using this
  have hlen : 1 ≤ ((full.drop k).takeWhile fun q =>
      q.ts == (full.getD k default).ts).length := by
    rw [hrun]
    simp
  by_cases hk0 : k = 0
  · subst hk0
    have htick : videoTick vfile vpt full 0 vb now =
        (((full.drop 0).takeWhile fun q => q.ts == (full.getD 0 default).ts).map
            fun q => sendPacketBytes vfile q vpt,
          0 + ((full.drop 0).takeWhile fun q => q.ts == (full.getD 0 default).ts).length,
          now, true) := by
      unfold videoTick
      rw [getD_drop_cons full 0 hk]
      dsimp only
      rw [if_pos rfl]
    rw [htick]
    exact ⟨rfl, rfl, hlen, hmax⟩
  · have htick := videoTick_paced vfile vpt full k vb now (by omega) hk
    by_cases hcond : elapsedUs vb now <
        tsDiffUs (full.getD (k - 1) default).ts (full.getD k default).ts vkhz - 5000
    · rw [htick, if_pos hcond] at hsent
      cases hsent
    · rw [htick, if_neg hcond]
      exact ⟨rfl, rfl, hlen, hmax⟩

/-- Witness for C7: three records at timestamp 1000 and one at 4000 — the
first tick emits all three 1000-records as one burst and the cursor lands on
the 4000-record. -/
theorem C7_video_burst_witness :
    (videoTick [] 100 [⟨0, 1000, 2, 0⟩, ⟨1, 1000, 2, 2⟩, ⟨2, 1000, 2, 4⟩,
      ⟨3, 4000, 2, 6⟩] 0 ⟨0, 0⟩ ⟨0, 0⟩).2.1 = 3 := by
  have h := C7_video_burst [] 100 [⟨0, 1000, 2, 0⟩, ⟨1, 1000, 2, 2⟩, ⟨2, 1000, 2, 4⟩,
    ⟨3, 4000, 2, 6⟩] 0 ⟨0, 0⟩ ⟨0, 0⟩ (by norm_num) (by decide)
  rw [h.2.1]
  decide

/-- C8: on a play request for an existing recording, if exactly one track's
index construction fails the request still succeeds, installs the playout
session state, and carries a warning naming the broken track; if both tracks
fail to yield frames the request fails with `ERROR_INVALID_RECORDING` and no
session state is installed. -/
theorem C8_play_partial_failure (arcFile vrcFile : Option String)
    (getF : String → Option FrameHeap) :
    ((arcFile.bind getF).isSome = true → vrcFile.isSome = true →
      (vrcFile.bind getF).isNone = true →
      (handlePlay arcFile vrcFile getF).result =
        Except.ok (some "Broken video file, playing audio only") ∧
      (handlePlay arcFile vrcFile getF).recordingSet = true ∧
      (handlePlay arcFile vrcFile getF).viewerAdded = true) ∧
    ((vrcFile.bind getF).isSome = true → arcFile.isSome = true →
      (arcFile.bind getF).isNone = true →
      (handlePlay arcFile vrcFile getF).result =
        Except.ok (some "Broken audio file, playing video only") ∧
      (handlePlay arcFile vrcFile getF).recordingSet = true ∧
      (handlePlay arcFile vrcFile getF).viewerAdded = true) ∧
    ((arcFile.bind getF).isNone = true → (vrcFile.bind getF).isNone = true →
      (handlePlay arcFile vrcFile getF).result =
        Except.error ERROR_INVALID_RECORDING ∧
      (handlePlay arcFile vrcFile getF).recordingSet = false ∧
      (handlePlay arcFile vrcFile getF).viewerAdded = false) := by
  refine ⟨?_, ?_, ?_⟩
  · intro ha hv hvb
    unfold handlePlay
    have h1 : ¬ ((arcFile.bind getF).isNone = true ∧ (vrcFile.bind getF).isNone = true) := by
      intro hc
      rw [Option.isSome_iff_exists] at ha
      obtain ⟨x, hx⟩ := ha
      rw [hx] at hc
      simp at hc
    rw [if_neg h1]
    refine ⟨?_, rfl, rfl⟩
    have h2 : (vrcFile.isSome = true ∧ (vrcFile.bind getF).isNone = true) := ⟨hv, hvb⟩
    simp only [if_pos h2]
  · intro hv ha hab
    unfold handlePlay
    have h1 : ¬ ((arcFile.bind getF).isNone = true ∧ (vrcFile.bind getF).isNone = true) := by
      intro hc
      rw [Option.isSome_iff_exists] at hv
      obtain ⟨x, hx⟩ := hv
      rw [hx] at hc
      simp at hc
    rw [if_neg h1]
    refine ⟨?_, rfl, rfl⟩
    have h2 : ¬ (vrcFile.isSome = true ∧ (vrcFile.bind getF).isNone = true) := by
      intro hc
      rw [Option.isSome_iff_exists] at hv
      obtain ⟨x, hx⟩ := hv
      rw [hx] at hc
      simp at hc
    have h3 : (arcFile.isSome = true ∧ (arcFile.bind getF).isNone = true) := ⟨ha, hab⟩
    simp only [if_neg h2, if_pos h3]
  · intro hab hvb
    unfold handlePlay
    have h1 : ((arcFile.bind getF).isNone = true ∧ (vrcFile.bind getF).isNone = true) :=
      ⟨hab, hvb⟩
    rw [if_pos h1]
    exact ⟨rfl, rfl, rfl⟩

/-- Witness for C8: a recording with audio file "a" and video file "v" under
three index builders — one where only "a" parses, one where only "v" parses,
and one where neither parses — exercising all three cases. -/
theorem C8_play_partial_failure_witness :
    (handlePlay (some "a") (some "v")
        (fun s => if s = "a" then some FrameHeap.empty else none)).result =
      Except.ok (some "Broken video file, playing audio only") ∧
    (handlePlay (some "a") (some "v")
        (fun s => if s = "v" then some FrameHeap.empty else none)).result =
      Except.ok (some "Broken audio file, playing video only") ∧
    (handlePlay (some "a") (some "v") (fun _ => none)).result =
      Except.error ERROR_INVALID_RECORDING := by
  refine ⟨?_, ?_, ?_⟩
  · exact ((C8_play_partial_failure (some "a") (some "v")
      (fun s => if s = "a" then some FrameHeap.empty else none)).1
      (by decide) (by decide) (by decide)).1
  · exact ((C8_play_partial_failure (some "a") (some "v")
      (fun s => if s = "v" then some FrameHeap.empty else none)).2.1
      (by decide) (by decide) (by decide)).1
  · exact ((C8_play_partial_failure (some "a") (some "v")
      (fun _ => none)).2.2 (by decide) (by decide)).1

lemma pickFreshId_spec (present : Nat → Bool) :
    ∀ (randoms : List Nat) (evs0 evs : List RegEvent) (id : Nat),
      pickFreshId present randoms evs0 = some (id, evs) →
      id ≠ 0 ∧ present id = false ∧
      ∃ mid, evs = evs0 ++ mid ++ [RegEvent.randomId id, RegEvent.lookupId id] ∧
        ∀ e ∈ mid, ∃ c, e = RegEvent.randomId c ∨ e = RegEvent.lookupId c := by
  intro randoms
  induction randoms with
  | nil =>
    intro evs0 evs id h
    simp [pickFreshId] at h
  | cons c rest ih =>
    intro evs0 evs id h
    simp only [pickFreshId] at h
    by_cases hc : c ≠ 0 ∧ present c = false
    · rw [if_pos hc] at h
      simp only [Option.some.injEq, Prod.mk.injEq] at h
      obtain ⟨hcid, hevs⟩ := h
      subst hcid
      refine ⟨hc.1, hc.2, [], ?_, ?_⟩
      · rw [← hevs]
        simp
      · intro e he
        simp at he
    · rw [if_neg hc] at h
      obtain ⟨hid, hp, mid, hevs, hmid⟩ :=
        ih (evs0 ++ [RegEvent.randomId c, RegEvent.lookupId c]) evs id h
      refine ⟨hid, hp, RegEvent.randomId c :: RegEvent.lookupId c :: mid, ?_, ?_⟩
      · rw [hevs]
        simp
      · intro e he
        simp only [List.mem_cons] at he
        rcases he with he | he | he
        · exact ⟨c, Or.inl he⟩
        · exact ⟨c, Or.inr he⟩
        · exact hmid e he

lemma finishCreate_trace (registry : List Nat) (id : Nat) (evs : List RegEvent)
    (audio video : Bool) :
    ∃ extra, (finishCreate registry id evs audio video).2.2 =
      evs ++ extra ++ [RegEvent.insertReg id, RegEvent.unlockReg] ∧
      RegEvent.lockReg ∉ extra ∧ RegEvent.unlockReg ∉ extra := by
  unfold finishCreate
  by_cases ha : audio <;> by_cases hv : video
  · exact ⟨[RegEvent.createEntity id, RegEvent.createFile id, RegEvent.createFile id],
      by simp [ha, hv], by simp, by simp⟩
  · exact ⟨[RegEvent.createEntity id, RegEvent.createFile id],
      by simp [ha, hv], by simp, by simp⟩
  · exact ⟨[RegEvent.createEntity id, RegEvent.createFile id],
      by simp [ha, hv], by simp, by simp⟩
  · exact ⟨[RegEvent.createEntity id],
      by simp [ha, hv], by simp, by simp⟩

/-- C9: a record request with an explicit positive id already in the registry
fails with the duplicate-recording error right after the lookup — the trace
holds no entity-creation, file-creation, or registry-insertion event and the
registry is unchanged; a request with id 0 behaves exactly like one with no
id; and a successful creation with no requested id yields a nonzero id absent
from the registry, prepends it to the registry, and its whole trace — random
draws, collision lookups, creation, insertion — sits between the single lock
acquisition and the single release. -/
theorem C9_record_create (registry randoms : List Nat) (audio video : Bool) :
    (∀ r, 0 < r → r ∈ registry →
      handleRecordCreate registry (some r) randoms audio video =
        some (registry, Except.error ERROR_RECORDING_EXISTS,
          [RegEvent.lockReg, RegEvent.lookupId r, RegEvent.unlockReg])) ∧
    (handleRecordCreate registry (some 0) randoms audio video =
      handleRecordCreate registry none randoms audio video) ∧
    (∀ reg' res evs,
      handleRecordCreate registry none randoms audio video = some (reg', res, evs) →
      ∃ id body, res = Except.ok id ∧ id ≠ 0 ∧ id ∉ registry ∧
        reg' = id :: registry ∧
        evs = RegEvent.lockReg :: body ++ [RegEvent.unlockReg] ∧
        RegEvent.lockReg ∉ body ∧ RegEvent.unlockReg ∉ body ∧
        RegEvent.randomId id ∈ body ∧ RegEvent.lookupId id ∈ body) := by
  refine ⟨?_, ?_, ?_⟩
  · intro r hr hmem
    simp only [handleRecordCreate]
    rw [if_pos hr, if_pos hmem]
    rfl
  · simp only [handleRecordCreate]
    rw [if_neg (lt_irrefl 0)]
  · intro reg' res evs h
    simp only [handleRecordCreate] at h
    rcases hpick : pickFreshId (fun c => decide (c ∈ registry)) randoms [RegEvent.lockReg]
      with _ | ⟨id, pevs⟩
    · rw [hpick] at h
      exact Option.noConfusion h
    · rw [hpick] at h
      simp only [Option.some.injEq] at h
      obtain ⟨hid0, hpres, mid, hpevs, hmid⟩ :=
        pickFreshId_spec (fun c => decide (c ∈ registry)) randoms [RegEvent.lockReg]
          pevs id hpick
      obtain ⟨extra, htr, hexl, hexu⟩ := finishCreate_trace registry id pevs audio video
      have hreg : (finishCreate registry id pevs audio video).1 = id :: registry := rfl
      have hres : (finishCreate registry id pevs audio video).2.1 = Except.ok id := rfl
      have h1 : reg' = (finishCreate registry id pevs audio video).1 := by rw [h]
      have h2 : res = (finishCreate registry id pevs audio video).2.1 := by rw [h]
      have h3 : evs = (finishCreate registry id pevs audio video).2.2 := by rw [h]
      have hml : RegEvent.lockReg ∉ mid := by
        intro hm
        obtain ⟨c, hc | hc⟩ := hmid _ hm <;> exact RegEvent.noConfusion hc
      have hmu : RegEvent.unlockReg ∉ mid := by
        intro hm
        obtain ⟨c, hc | hc⟩ := hmid _ hm <;> exact RegEvent.noConfusion hc
      refine ⟨id, mid ++ [RegEvent.randomId id, RegEvent.lookupId id] ++ extra ++
          [RegEvent.insertReg id], h2.trans hres, hid0, by simpa using hpres,
        h1.trans hreg, ?_, ?_, ?_, ?_, ?_⟩
      · rw [h3, htr, hpevs]
        simp
      · simp [List.mem_append, hml, hexl]
      · simp [List.mem_append, hmu, hexu]
      · simp
      · simp

/-- Witness for C9: registry holding id 5 — a record request for id 5 is
rejected with the duplicate error and a bare lock/lookup/unlock trace, and a
request with no id draws randoms 0, 5, 7 and registers 7. -/
theorem C9_record_create_witness :
    handleRecordCreate [5] (some 5) [] true true =
      some ([5], Except.error ERROR_RECORDING_EXISTS,
        [RegEvent.lockReg, RegEvent.lookupId 5, RegEvent.unlockReg]) ∧
    ∃ id body, (Except.ok 7 : Except Nat Nat) = Except.ok id ∧ id ≠ 0 ∧
      id ∉ [5] ∧ [7, 5] = id :: [5] ∧
      ([RegEvent.lockReg, RegEvent.randomId 0, RegEvent.lookupId 0,
        RegEvent.randomId 5, RegEvent.lookupId 5, RegEvent.randomId 7,
        RegEvent.lookupId 7, RegEvent.createEntity 7, RegEvent.createFile 7,
        RegEvent.createFile 7, RegEvent.insertReg 7, RegEvent.unlockReg] :
          List RegEvent) = RegEvent.lockReg :: body ++ [RegEvent.unlockReg] ∧
      RegEvent.lockReg ∉ body ∧ RegEvent.unlockReg ∉ body ∧
      RegEvent.randomId id ∈ body ∧ RegEvent.lookupId id ∈ body := by
  constructor
  · exact (C9_record_create [5] [] true true).1 5 (by decide) (by decide)
  · exact (C9_record_create [5] [0, 5, 7] true true).2.2 [7, 5] (Except.ok 7)
      [RegEvent.lockReg, RegEvent.randomId 0, RegEvent.lookupId 0,
        RegEvent.randomId 5, RegEvent.lookupId 5, RegEvent.randomId 7,
        RegEvent.lookupId 7, RegEvent.createEntity 7, RegEvent.createFile 7,
        RegEvent.createFile 7, RegEvent.insertReg 7, RegEvent.unlockReg]
      (by rfl)

lemma readAt_length (file : List Nat) (pos n : Nat) (hb : pos + n ≤ file.length) :
    (readAt file pos n).length = n := by
  unfold readAt
  rw [List.length_take, List.length_drop]
  omega

lemma byteAt_readAt (file : List Nat) (pos n i : Nat) (hi : i < n)
    (_hb : pos + n ≤ file.length) :
    byteAt (readAt file pos n) i = byteAt file (pos + i) := by
  unfold byteAt readAt
  rw [List.getD_eq_getElem?_getD, List.getD_eq_getElem?_getD,
    List.getElem?_take, if_pos hi, List.getElem?_drop]

lemma audioTick_sends (afile : List Nat) (apt : Nat) (full : List FramePacket)
    (k : Nat) (ab now : Timeval) :
    ∀ out ∈ (audioTick afile apt full k ab now).1,
      ∃ q ∈ full, out = sendPacketBytes afile q apt := by
  intro out hout
  rcases hd : full.drop k with _ | ⟨a, rest⟩
  · have he : audioTick afile apt full k ab now = ([], k, ab, false) := by
      unfold audioTick
      rw [hd]
    rw [he] at hout
    simp at hout
  · have ha : a ∈ full :=
      List.drop_subset k full (by rw [hd]; exact List.mem_cons_self a rest)
    by_cases hk : k = 0
    · have he : audioTick afile apt full k ab now =
          ([sendPacketBytes afile a apt], 1, now, true) := by
        unfold audioTick
        rw [hd]
        dsimp only
        rw [if_pos hk]
      rw [he] at hout
      simp only [List.mem_singleton] at hout
      exact ⟨a, ha, hout⟩
    · by_cases hcond : elapsedUs ab now <
          tsDiffUs (full.getD (k - 1) default).ts a.ts (akhzOf apt) - 5000
      · have he : audioTick afile apt full k ab now = ([], k, ab, false) := by
          unfold audioTick
          rw [hd]
          dsimp only
          rw [if_neg hk, if_pos hcond]
        rw [he] at hout
        simp at hout
      · have he : audioTick afile apt full k ab now =
            ([sendPacketBytes afile a apt], k + 1,
              advanceRef ab
                (tsDiffUs (full.getD (k - 1) default).ts a.ts (akhzOf apt)), true) := by
          unfold audioTick
          rw [hd]
          dsimp only
          rw [if_neg hk, if_neg hcond]
        rw [he] at hout
        simp only [List.mem_singleton] at hout
        exact ⟨a, ha, hout⟩

lemma videoTick_sends (vfile : List Nat) (vpt : Nat) (full : List FramePacket)
    (k : Nat) (vb now : Timeval) :
    ∀ out ∈ (videoTick vfile vpt full k vb now).1,
      ∃ q ∈ full, out = sendPacketBytes vfile q vpt := by
  intro out hout
  rcases hd : full.drop k with _ | ⟨v, rest⟩
  · have he : videoTick vfile vpt full k vb now = ([], k, vb, false) := by
      unfold videoTick
      rw [hd]
    rw [he] at hout
    simp at hout
  · have hsub : ∀ q ∈ (full.drop k).takeWhile (fun q => q.ts == v.ts), q ∈ full :=
      fun q hq => List.drop_subset k full ((List.takeWhile_prefix _).subset hq)
    by_cases hk : k = 0
    · have he : videoTick vfile vpt full k vb now =
          (((full.drop k).takeWhile fun q => q.ts == v.ts).map
              fun q => sendPacketBytes vfile q vpt,
            k + ((full.drop k).takeWhile fun q => q.ts == v.ts).length, now, true) := by
        unfold videoTick
        rw [hd]
        dsimp only
        rw [if_pos hk]
      rw [he] at hout
      simp only [List.mem_map] at hout
      obtain ⟨q, hq, hfq⟩ := hout
      exact ⟨q, hsub q hq, hfq.symm⟩
    · by_cases hcond : elapsedUs vb now <
          tsDiffUs (full.getD (k - 1) default).ts v.ts vkhz - 5000
      · have he : videoTick vfile vpt full k vb now = ([], k, vb, false) := by
          unfold videoTick
          rw [hd]
          dsimp only
          rw [if_neg hk, if_pos hcond]
        rw [he] at hout
        simp at hout
      · have he : videoTick vfile vpt full k vb now =
            (((full.drop k).takeWhile fun q => q.ts == v.ts).map
                fun q => sendPacketBytes vfile q vpt,
              k + ((full.drop k).takeWhile fun q => q.ts == v.ts).length,
              advanceRef vb (tsDiffUs (full.getD (k - 1) default).ts v.ts vkhz),
              true) := by
          unfold videoTick
          rw [hd]
          dsimp only
          rw [if_neg hk, if_neg hcond]
        rw [he] at hout
        simp only [List.mem_map] at hout
        obtain ⟨q, hq, hfq⟩ := hout
        exact ⟨q, hsub q hq, hfq.symm⟩

/-- C10: a relayed packet is the recorded bytes of its frame with only the
7-bit payload-type field of byte 1 overwritten by the negotiated playout
payload type (the marker bit and every other byte are the recorded values, so
the container's stored payload type is never forwarded); every packet either
track emits goes through this rewrite; and the negotiated types are 100 for
video and, for audio, 0 for pcmu, 8 for pcma, 9 for g722 (case-insensitive)
and 111 otherwise. -/
theorem C10_payload_type_overwrite (file : List Nat) (p : FramePacket) (pt : Nat)
    (h2 : 2 ≤ p.len) (hb : p.offset + p.len ≤ file.length) :
    (sendPacketBytes file p pt).length = p.len ∧
    byteAt (sendPacketBytes file p pt) 1 % 128 = pt % 128 ∧
    byteAt (sendPacketBytes file p pt) 1 =
      byteAt file (p.offset + 1) / 128 * 128 + pt % 128 ∧
    (∀ i < p.len, i ≠ 1 →
      byteAt (sendPacketBytes file p pt) i = byteAt file (p.offset + i)) ∧
    (∀ (afile : List Nat) (apt : Nat) (full : List FramePacket) (k : Nat)
        (ab now : Timeval), ∀ out ∈ (audioTick afile apt full k ab now).1,
      ∃ q ∈ full, out = sendPacketBytes afile q apt) ∧
    (∀ (vfile : List Nat) (vpt : Nat) (full : List FramePacket) (k : Nat)
        (vb now : Timeval), ∀ out ∈ (videoTick vfile vpt full k vb now).1,
      ∃ q ∈ full, out = sendPacketBytes vfile q vpt) ∧
    audioPtOf (some "pcmu") = 0 ∧ audioPtOf (some "PCMU") = 0 ∧
    audioPtOf (some "pcma") = 8 ∧ audioPtOf (some "g722") = 9 ∧
    (∀ s : String, caseEq s "pcmu" = false → caseEq s "pcma" = false →
      caseEq s "g722" = false → audioPtOf (some s) = 111) ∧
    VIDEO_PT = 100 := by
  have hlen : (readAt file p.offset p.len).length = p.len := readAt_length _ _ _ hb
  have h1lt : 1 < (readAt file p.offset p.len).length := by
    rw [hlen]
    omega
  have hb1 : byteAt (sendPacketBytes file p pt) 1 =
      byteAt (readAt file p.offset p.len) 1 / 128 * 128 + pt % 128 := by
    unfold sendPacketBytes setPtByte byteAt
    exact getD_set_self _ _ _ _ h1lt
  rw [byteAt_readAt file p.offset p.len 1 (by omega) hb] at hb1
  refine ⟨?_, ?_, hb1, ?_, audioTick_sends, videoTick_sends, by decide, by decide,
    by decide, by decide, ?_, rfl⟩
  · unfold sendPacketBytes setPtByte
    rw [List.length_set]
    exact hlen
  · rw [hb1]
    omega
  · intro i hi hne
    have hstep : byteAt (sendPacketBytes file p pt) i =
        byteAt (readAt file p.offset p.len) i := by
      unfold sendPacketBytes setPtByte byteAt
      exact getD_set_ne _ _ _ _ _ (Ne.symm hne)
    rw [hstep, byteAt_readAt file p.offset p.len i hi hb]
  · intro s hs1 hs2 hs3
    simp only [audioPtOf]
    rw [if_neg (by simp [hs1]), if_neg (by simp [hs2]), if_neg (by simp [hs3])]
    rfl

/-- Witness for C10: a 4-byte file whose recorded packet [offset 1, length 2]
has byte 1 equal to 200 (marker bit set, stored payload type 72): the relayed
packet keeps its length and carries payload type 100. -/
theorem C10_payload_type_overwrite_witness :
    (sendPacketBytes [0, 0, 200, 0] ⟨0, 0, 2, 1⟩ 100).length = 2 ∧
    byteAt (sendPacketBytes [0, 0, 200, 0] ⟨0, 0, 2, 1⟩ 100) 1 % 128 = 100 % 128 := by
  have h := C10_payload_type_overwrite [0, 0, 200, 0] ⟨0, 0, 2, 1⟩ 100
    (by decide) (by decide)
  exact ⟨h.1, h.2.1⟩

end AuviousRecordPlay
